import Mathlib

/-!
Verification development for the OfflineData subsystem of the chan repository.

The Python sources embedded here are:
  OfflineData/offline_data_util.py  (class OfflineDataUtil: CSV/pickle series store)
  OfflineData/bao_update.py         (class BaoStockUpdater)
  OfflineData/bond_update.py        (class AkshareBondUpdater)
  OfflineData/reits_update.py       (class AkshareReitsUpdater)

Supporting modules Common/CTime.py, Common/CEnum.py, Common/func_util.py and
KLine/KLine_Unit.py are imported by those files but are not part of the
source tree under verification; the definitions standing in for them are
modelled from the specification and marked as such in their doc comments.

Machine-level conventions of the embedding:
  - Python exceptions are an explicit Except value; a try/except block is a
    match on that value.
  - datetime.now() is a parameter of every function that reads the clock.
  - The file system is a finite map from storage keys to file states; an
    ioFault state stands for a file whose open/read/write raises OSError.
  - Python floating point numbers are abstracted by a type carrying a
    serialisation to text and a parse, constrained only where a claim
    needs the real behaviour (decimal repr round-trips).
-/

/-- Python exception classes that appear in the embedded code paths. -/
inductive PyErr where
  | typeError
  | nameError
  | attributeError
  | ioError
  | valueError
deriving DecidableEq, Repr

/-! ## Calendar arithmetic (datetime.date / timedelta behaviour) -/

/-- Modelled from the spec: CTime (Common/CTime.py, not under src/) holds a
calendar timestamp; for the daily periods the claims are about it is a plain
date with hour and minute zero, rendered as YYYY-MM-DD. -/
structure CTime where
  year : Nat
  month : Nat
  day : Nat
deriving DecidableEq, Repr

/-- Gregorian leap year rule, as used by datetime. -/
def isLeap (y : Nat) : Bool :=
  (y % 4 == 0 && y % 100 != 0) || y % 400 == 0

/-- Number of days of month m in year y (Gregorian). -/
def daysInMonth (y m : Nat) : Nat :=
  if m = 2 then (if isLeap y then 29 else 28)
  else if m = 4 ∨ m = 6 ∨ m = 9 ∨ m = 11 then 30
  else 31

/-- The day after t, the effect of datetime + timedelta(days=1). -/
def nextDay (t : CTime) : CTime :=
  if t.day < daysInMonth t.year t.month then ⟨t.year, t.month, t.day + 1⟩
  else if t.month < 12 then ⟨t.year, t.month + 1, 1⟩
  else ⟨t.year + 1, 1, 1⟩

/-- The day before t, single step of datetime - timedelta(days=1). -/
def prevDay (t : CTime) : CTime :=
  if 1 < t.day then ⟨t.year, t.month, t.day - 1⟩
  else if 1 < t.month then ⟨t.year, t.month - 1, daysInMonth t.year (t.month - 1)⟩
  else ⟨t.year - 1, 12, 31⟩

/-- datetime - timedelta(days=n), by iterating single-day steps. -/
def subDays : CTime → Nat → CTime
  | t, 0 => t
  | t, n + 1 => subDays (prevDay t) n

/-- Numeric key of a date; two valid dates compare chronologically iff their
keys compare as naturals. -/
def CTime.dateKey (t : CTime) : Nat :=
  t.year * 10000 + t.month * 100 + t.day

/-- Digit-count bounds under which the YYYY-MM-DD rendering of a date is
faithful (every really valid date satisfies them). -/
def CTime.wf (t : CTime) : Prop :=
  t.year < 10000 ∧ t.month < 100 ∧ t.day < 100

instance (t : CTime) : Decidable t.wf := by
  unfold CTime.wf; infer_instance

/-! ## Text rendering of numbers and dates -/

/-- The ASCII digit character of n (for n < 10). -/
def digitChar (n : Nat) : Char := Char.ofNat (48 + n)

/-- Zero-padded decimal rendering of n to exactly w digits, most significant
first; the strftime %Y / %m / %d building block. -/
def padDigits : Nat → Nat → List Char
  | 0, _ => []
  | w + 1, n => digitChar (n / 10 ^ w) :: padDigits w (n % 10 ^ w)

/-- Characters of the strftime("%Y-%m-%d") rendering of a date; also the
value of CTime.to_str for daily data (modelled from the spec: timestamps are
formatted as YYYY-MM-DD). -/
def CTime.toChars (t : CTime) : List Char :=
  padDigits 4 t.year ++ '-' :: (padDigits 2 t.month ++ '-' :: padDigits 2 t.day)

/-- CTime.to_str as a Lean String. -/
def CTime.to_str (t : CTime) : String := ⟨t.toChars⟩

/-! ## Python string comparison (codepoint-lexicographic) -/

/-- Python string less-than: lexicographic comparison by codepoint. -/
def lexLt : List Char → List Char → Bool
  | [], [] => false
  | [], _ :: _ => true
  | _ :: _, [] => false
  | a :: as, b :: bs => if a < b then true else if b < a then false else lexLt as bs

/-- Python string less-or-equal, expressed through lexLt as Python does for
sorting (not b < a). -/
def lexLe (a b : List Char) : Bool := !(lexLt b a)

theorem lexLt_irrefl : ∀ l : List Char, lexLt l l = false
  | [] => rfl
  | a :: as => by
      simp only [lexLt, lt_irrefl, if_false]
      exact lexLt_irrefl as

theorem lexLt_asymm : ∀ {a b : List Char}, lexLt a b = true → lexLt b a = false
  | [], [], h => by simp [lexLt] at h
  | [], _ :: _, _ => rfl
  | _ :: _, [], h => by simp [lexLt] at h
  | x :: xs, y :: ys, h => by
      by_cases hxy : x < y
      · simp [lexLt, hxy, asymm hxy]
      · by_cases hyx : y < x
        · simp [lexLt, hxy, hyx] at h
        · simp only [lexLt, hxy, hyx, if_false] at h ⊢
          exact lexLt_asymm h

theorem lexLt_antisymm : ∀ {a b : List Char},
    lexLt a b = false → lexLt b a = false → a = b
  | [], [], _, _ => rfl
  | [], _ :: _, h, _ => by simp [lexLt] at h
  | _ :: _, [], _, h => by simp [lexLt] at h
  | x :: xs, y :: ys, h, h' => by
      by_cases hxy : x < y
      · simp [lexLt, hxy] at h
      · by_cases hyx : y < x
        · simp [lexLt, hyx] at h'
        · simp only [lexLt, hxy, hyx, if_false] at h h'
          have hx : x = y := le_antisymm (not_lt.mp hyx) (not_lt.mp hxy)
          rw [hx, lexLt_antisymm h h']

theorem lexLt_trans : ∀ {a b c : List Char},
    lexLt a b = true → lexLt b c = true → lexLt a c = true
  | [], _, _ :: _, _, _ => rfl
  | [], b, [], _, h => by cases b <;> simp [lexLt] at h
  | _ :: _, [], _, h, _ => by simp [lexLt] at h
  | _ :: _, _ :: _, [], _, h => by simp [lexLt] at h
  | x :: xs, y :: ys, z :: zs, h, h' => by
      by_cases hxy : x < y
      · by_cases hyz : y < z
        · simp [lexLt, lt_trans hxy hyz]
        · by_cases hzy : z < y
          · simp [lexLt, hyz, hzy] at h'
          · have : y = z := le_antisymm (not_lt.mp hzy) (not_lt.mp hyz)
            subst this
            simp [lexLt, hxy]
      · by_cases hyx : y < x
        · simp [lexLt, hxy, hyx] at h
        · have hx : x = y := le_antisymm (not_lt.mp hyx) (not_lt.mp hxy)
          subst hx
          simp only [lexLt, lt_irrefl, if_false] at h
          by_cases hyz : x < z
          · simp [lexLt, hyz]
          · by_cases hzy : z < x
            · simp [lexLt, hyz, hzy] at h'
            · simp only [lexLt, hyz, hzy, if_false] at h' ⊢
              exact lexLt_trans h h'

/-! ## Digit-level facts (finite checks) -/

/-- Python str.isdigit range check for ASCII digits. -/
def isDigitCh (c : Char) : Bool := 48 ≤ c.toNat && c.toNat ≤ 57

/-- Numeric value of an ASCII digit character. -/
def charDigitVal (c : Char) : Nat := c.toNat - 48

/-- The whitespace characters removed by Python str.strip(). -/
def isSpacePy (c : Char) : Bool :=
  c == ' ' || c == '\t' || c == '\n' || c == '\r' || c == '\x0b' || c == '\x0c'

theorem digitChar_lt_iff : ∀ m, m < 10 → ∀ n, n < 10 →
    ((digitChar m < digitChar n) ↔ m < n) := by decide

theorem isDigitCh_digitChar : ∀ n, n < 10 → isDigitCh (digitChar n) = true := by decide

theorem charDigitVal_digitChar : ∀ n, n < 10 → charDigitVal (digitChar n) = n := by decide

theorem isDigitCh_facts {c : Char} (h : isDigitCh c = true) :
    isSpacePy c = false ∧ (c == ',') = false ∧ (c == '/') = false ∧ (c == '-') = false := by
  have h48 : 48 ≤ c.toNat ∧ c.toNat ≤ 57 := by
    simpa [isDigitCh] using h
  refine ⟨?_, ?_, ?_, ?_⟩
  · by_contra hs
    have hs' : isSpacePy c = true := by
      cases hval : isSpacePy c
      · exact absurd hval hs
      · rfl
    have : c = ' ' ∨ c = '\t' ∨ c = '\n' ∨ c = '\r' ∨ c = '\x0b' ∨ c = '\x0c' := by
      simpa [isSpacePy, or_assoc] using hs'
    rcases this with h' | h' | h' | h' | h' | h' <;> subst h' <;> simp_all
  · by_cases hc : c = ','
    · subst hc; simp_all
    · simp [hc]
  · by_cases hc : c = '/'
    · subst hc; simp_all
    · simp [hc]
  · by_cases hc : c = '-'
    · subst hc; simp_all
    · simp [hc]

/-! ## padDigits lemmas -/

theorem padDigits_length : ∀ w n, (padDigits w n).length = w
  | 0, _ => rfl
  | w + 1, n => by simp [padDigits, padDigits_length w]

theorem padDigits_mem_digit : ∀ w n, n < 10 ^ w → ∀ c ∈ padDigits w n, isDigitCh c = true
  | 0, _, _, _, hc => by simp [padDigits] at hc
  | w + 1, n, hn, c, hc => by
    simp only [padDigits, List.mem_cons] at hc
    rcases hc with hc | hc
    · subst hc
      exact isDigitCh_digitChar _ (Nat.div_lt_of_lt_mul (by rw [pow_succ] at hn; exact hn))
    · exact padDigits_mem_digit w (n % 10 ^ w) (Nat.mod_lt _ (Nat.pos_pow_of_pos w (by norm_num))) c hc

theorem lexLt_padDigits_iff : ∀ w a b, a < 10 ^ w → b < 10 ^ w →
    (lexLt (padDigits w a) (padDigits w b) = true ↔ a < b)
  | 0, a, b, ha, hb => by
    interval_cases a
    interval_cases b
    simp [padDigits, lexLt]
  | w + 1, a, b, ha, hb => by
    have ha' : a / 10 ^ w < 10 :=
      Nat.div_lt_of_lt_mul (by rw [pow_succ] at ha; exact ha)
    have hb' : b / 10 ^ w < 10 :=
      Nat.div_lt_of_lt_mul (by rw [pow_succ] at hb; exact hb)
    have hpow : 0 < 10 ^ w := Nat.pos_pow_of_pos w (by norm_num)
    simp only [padDigits, lexLt]
    by_cases hq : a / 10 ^ w < b / 10 ^ w
    · have hlt : digitChar (a / 10 ^ w) < digitChar (b / 10 ^ w) :=
        (digitChar_lt_iff _ ha' _ hb').mpr hq
      have hab : a < b :=
        calc a < (a / 10 ^ w + 1) * 10 ^ w :=
              (Nat.div_lt_iff_lt_mul hpow).mp (Nat.lt_succ_self _)
          _ ≤ (b / 10 ^ w) * 10 ^ w := Nat.mul_le_mul_right _ (Nat.succ_le_of_lt hq)
          _ ≤ b := Nat.div_mul_le_self b _
      simp only [hlt, if_true]
      exact ⟨fun _ => hab, fun _ => trivial⟩
    · by_cases hq' : b / 10 ^ w < a / 10 ^ w
      · have hlt : digitChar (b / 10 ^ w) < digitChar (a / 10 ^ w) :=
          (digitChar_lt_iff _ hb' _ ha').mpr hq'
        have hnlt : ¬ digitChar (a / 10 ^ w) < digitChar (b / 10 ^ w) := asymm hlt
        have hba : b < a :=
          calc b < (b / 10 ^ w + 1) * 10 ^ w :=
                (Nat.div_lt_iff_lt_mul hpow).mp (Nat.lt_succ_self _)
            _ ≤ (a / 10 ^ w) * 10 ^ w := Nat.mul_le_mul_right _ (Nat.succ_le_of_lt hq')
            _ ≤ a := Nat.div_mul_le_self a _
        simp only [hnlt, if_false, hlt, if_true]
        exact iff_of_false (by simp) (not_lt.mpr hba.le)
      · have hqq : a / 10 ^ w = b / 10 ^ w := le_antisymm (not_lt.mp hq') (not_lt.mp hq)
        have hnlt : ¬ digitChar (a / 10 ^ w) < digitChar (b / 10 ^ w) := by
          rw [hqq]; exact lt_irrefl _
        have hnlt' : ¬ digitChar (b / 10 ^ w) < digitChar (a / 10 ^ w) := by
          rw [hqq]; exact lt_irrefl _
        simp only [hnlt, hnlt', if_false]
        rw [lexLt_padDigits_iff w _ _ (Nat.mod_lt _ hpow) (Nat.mod_lt _ hpow)]
        have hda := Nat.div_add_mod a (10 ^ w)
        have hdb := Nat.div_add_mod b (10 ^ w)
        rw [hqq] at hda
        omega

theorem padDigits_inj {w a b : Nat} (ha : a < 10 ^ w) (hb : b < 10 ^ w)
    (h : padDigits w a = padDigits w b) : a = b := by
  rcases Nat.lt_trichotomy a b with hlt | heq | hlt
  · have := (lexLt_padDigits_iff w a b ha hb).mpr hlt
    rw [h, lexLt_irrefl] at this
    exact absurd this (by simp)
  · exact heq
  · have := (lexLt_padDigits_iff w b a hb ha).mpr hlt
    rw [h, lexLt_irrefl] at this
    exact absurd this (by simp)

theorem lexLt_append_same_length : ∀ (x y r s : List Char), x.length = y.length →
    lexLt (x ++ r) (y ++ s) = (if x = y then lexLt r s else lexLt x y)
  | [], [], r, s, _ => by simp
  | [], _ :: _, _, _, h => by simp at h
  | _ :: _, [], _, _, h => by simp at h
  | a :: x', b :: y', r, s, h => by
    have h' : x'.length = y'.length := by simpa using h
    by_cases hab : a < b
    · have hne : (a :: x') ≠ (b :: y') := by
        intro hc; cases hc; exact lt_irrefl _ hab
      simp [lexLt, hab, hne]
    · by_cases hba : b < a
      · have hne : (a :: x') ≠ (b :: y') := by
          intro hc; cases hc; exact lt_irrefl _ hba
        simp [lexLt, hab, hba, hne]
      · have heq : a = b := le_antisymm (not_lt.mp hba) (not_lt.mp hab)
        subst heq
        simp only [List.cons_append, lexLt, lt_irrefl, if_false, List.append_eq]
        rw [lexLt_append_same_length x' y' r s h']
        by_cases hxy : x' = y'
        · simp [hxy]
        · have hne : (a :: x') ≠ (a :: y') := by
            intro hc; cases hc; exact hxy rfl
          simp [hxy, hne, lexLt, lt_irrefl]

/-! ## Comparing rendered dates is comparing dates -/

theorem dash_not_lt_dash : ¬ ('-' : Char) < '-' := by decide

theorem lexLt_cons_same (c : Char) (r s : List Char) :
    lexLt (c :: r) (c :: s) = lexLt r s := by
  simp [lexLt, lt_irrefl]

theorem toChars_lt_iff {a b : CTime} (ha : a.wf) (hb : b.wf) :
    (lexLt a.toChars b.toChars = true ↔ a.dateKey < b.dateKey) := by
  obtain ⟨hay, ham, had⟩ := ha
  obtain ⟨hby, hbm, hbd⟩ := hb
  have h4 : (10 : Nat) ^ 4 = 10000 := by norm_num
  have h2 : (10 : Nat) ^ 2 = 100 := by norm_num
  have hay' : a.year < 10 ^ 4 := by omega
  have hby' : b.year < 10 ^ 4 := by omega
  have ham' : a.month < 10 ^ 2 := by omega
  have hbm' : b.month < 10 ^ 2 := by omega
  have had' : a.day < 10 ^ 2 := by omega
  have hbd' : b.day < 10 ^ 2 := by omega
  unfold CTime.toChars
  rw [lexLt_append_same_length _ _ _ _ (by rw [padDigits_length, padDigits_length])]
  by_cases hy : padDigits 4 a.year = padDigits 4 b.year
  · have hyy : a.year = b.year := padDigits_inj hay' hby' hy
    rw [if_pos hy, lexLt_cons_same,
      lexLt_append_same_length _ _ _ _ (by rw [padDigits_length, padDigits_length])]
    by_cases hm : padDigits 2 a.month = padDigits 2 b.month
    · have hmm : a.month = b.month := padDigits_inj ham' hbm' hm
      rw [if_pos hm, lexLt_cons_same, lexLt_padDigits_iff 2 _ _ had' hbd']
      unfold CTime.dateKey
      omega
    · rw [if_neg hm, lexLt_padDigits_iff 2 _ _ ham' hbm']
      have hne : a.month ≠ b.month := fun hc => hm (by rw [hc])
      unfold CTime.dateKey
      omega
  · rw [if_neg hy, lexLt_padDigits_iff 4 _ _ hay' hby']
    have hne : a.year ≠ b.year := fun hc => hy (by rw [hc])
    unfold CTime.dateKey
    omega

theorem toChars_inj {a b : CTime} (ha : a.wf) (hb : b.wf)
    (h : a.toChars = b.toChars) : a = b := by
  have h1 : lexLt a.toChars b.toChars = false := by rw [h]; exact lexLt_irrefl _
  have h2 : lexLt b.toChars a.toChars = false := by rw [h]; exact lexLt_irrefl _
  have hk1 : ¬ a.dateKey < b.dateKey := fun hc => by
    have := (toChars_lt_iff ha hb).mpr hc
    rw [h1] at this
    cases this
  have hk2 : ¬ b.dateKey < a.dateKey := fun hc => by
    have := (toChars_lt_iff hb ha).mpr hc
    rw [h2] at this
    cases this
  obtain ⟨hay, ham, had⟩ := ha
  obtain ⟨hby, hbm, hbd⟩ := hb
  unfold CTime.dateKey at hk1 hk2
  cases a
  cases b
  simp only [CTime.mk.injEq]
  simp only at hay ham had hby hbm hbd hk1 hk2
  omega

theorem toChars_mem {t : CTime} (ht : t.wf) :
    ∀ c ∈ t.toChars, isDigitCh c = true ∨ c = '-' := by
  obtain ⟨hy, hm, hd⟩ := ht
  intro c hc
  unfold CTime.toChars at hc
  simp only [List.mem_append, List.mem_cons] at hc
  rcases hc with hc | hc | hc | hc | hc
  · exact Or.inl (padDigits_mem_digit 4 _ (by norm_num; omega) c hc)
  · exact Or.inr hc
  · exact Or.inl (padDigits_mem_digit 2 _ (by norm_num; omega) c hc)
  · exact Or.inr hc
  · exact Or.inl (padDigits_mem_digit 2 _ (by norm_num; omega) c hc)

theorem toChars_length (t : CTime) : t.toChars.length = 10 := by
  unfold CTime.toChars
  simp [padDigits_length]

/-! ## Python string utilities used by the store -/

/-- Python str.strip(): drop leading and trailing whitespace. -/
def stripChars (l : List Char) : List Char :=
  ((l.dropWhile isSpacePy).reverse.dropWhile isSpacePy).reverse

/-- Python str.split(sep) for a single-character separator, keeping empty
parts, as list of parts. -/
def splitChar (sep : Char) : List Char → List (List Char)
  | [] => [[]]
  | c :: cs =>
    match splitChar sep cs with
    | [] => [[c]]
    | p :: ps => if c == sep then [] :: p :: ps else (c :: p) :: ps

/-- Python sep.join(parts) for a single-character separator. -/
def joinChar (sep : Char) : List (List Char) → List Char
  | [] => []
  | [c] => c
  | c :: c' :: cs => c ++ sep :: joinChar sep (c' :: cs)

/-- Python str.replace(old, new) for single characters. -/
def replaceChar (old new : Char) (l : List Char) : List Char :=
  l.map (fun c => if c == old then new else c)

/-- Python int(s) on the strings produced here: strip, then require a
nonempty all-digit string (int also accepts signs and unicode digits, which
never occur in this data). -/
def parseNat (l : List Char) : Option Nat :=
  let s := stripChars l
  if s ≠ [] ∧ s.all isDigitCh then some (s.foldl (fun acc c => acc * 10 + charDigitVal c) 0)
  else none

theorem dropWhile_false {p : Char → Bool} : ∀ {l : List Char},
    (∀ c ∈ l, p c = false) → l.dropWhile p = l
  | [], _ => rfl
  | a :: l, h => by
    have ha : p a = false := h a (List.mem_cons_self a l)
    simp [List.dropWhile_cons, ha]

theorem stripChars_eq_self {l : List Char} (h : ∀ c ∈ l, isSpacePy c = false) :
    stripChars l = l := by
  unfold stripChars
  rw [dropWhile_false h, dropWhile_false (fun c hc => h c (List.mem_reverse.mp hc)),
    List.reverse_reverse]

theorem splitChar_cons (sep c : Char) (cs : List Char) :
    splitChar sep (c :: cs) =
      match splitChar sep cs with
      | [] => [[c]]
      | p :: ps => if c == sep then [] :: p :: ps else (c :: p) :: ps := rfl

theorem splitChar_ne_nil (sep : Char) : ∀ l, splitChar sep l ≠ []
  | [] => by simp [splitChar]
  | c :: cs => by
    rw [splitChar_cons]
    cases hs : splitChar sep cs with
    | nil => simp
    | cons p ps => cases hc : (c == sep) <;> simp [hc]

theorem splitChar_no_sep {sep : Char} : ∀ {l : List Char},
    (∀ c ∈ l, (c == sep) = false) → splitChar sep l = [l]
  | [], _ => rfl
  | c :: cs, h => by
    have hrec : splitChar sep cs = [cs] :=
      splitChar_no_sep (fun d hd => h d (List.mem_cons_of_mem c hd))
    have hc : (c == sep) = false := h c (List.mem_cons_self c cs)
    rw [splitChar_cons, hrec]
    simp [hc]

theorem splitChar_append_sep {sep : Char} : ∀ {x rest : List Char},
    (∀ c ∈ x, (c == sep) = false) →
    splitChar sep (x ++ sep :: rest) = x :: splitChar sep rest
  | [], rest, _ => by
    show splitChar sep (sep :: rest) = [] :: splitChar sep rest
    rw [splitChar_cons]
    cases hs : splitChar sep rest with
    | nil => exact absurd hs (splitChar_ne_nil sep rest)
    | cons p ps => simp
  | c :: x, rest, h => by
    have hrec : splitChar sep (x ++ sep :: rest) = x :: splitChar sep rest :=
      splitChar_append_sep (fun d hd => h d (List.mem_cons_of_mem c hd))
    have hc : (c == sep) = false := h c (List.mem_cons_self c x)
    show splitChar sep (c :: (x ++ sep :: rest)) = (c :: x) :: splitChar sep rest
    rw [splitChar_cons, hrec]
    simp [hc]

theorem splitChar_joinChar {sep : Char} : ∀ {cells : List (List Char)}, cells ≠ [] →
    (∀ p ∈ cells, ∀ c ∈ p, (c == sep) = false) →
    splitChar sep (joinChar sep cells) = cells
  | [], h, _ => absurd rfl h
  | [c], _, h => by
    unfold joinChar
    exact splitChar_no_sep (h c (List.mem_singleton_self c))
  | c :: c' :: cs, _, h => by
    have hrec : splitChar sep (joinChar sep (c' :: cs)) = c' :: cs :=
      splitChar_joinChar (by simp) (fun p hp => h p (List.mem_cons_of_mem c hp))
    show splitChar sep (c ++ sep :: joinChar sep (c' :: cs)) = c :: c' :: cs
    rw [splitChar_append_sep (h c (List.mem_cons_self c (c' :: cs))), hrec]

theorem replaceChar_eq_self {old new : Char} {l : List Char}
    (h : ∀ c ∈ l, (c == old) = false) : replaceChar old new l = l := by
  unfold replaceChar
  have hid : ∀ c ∈ l, (if c == old then new else c) = id c := by
    intro c hc
    rw [h c hc]
    rfl
  rw [List.map_congr_left hid, List.map_id]

theorem foldl_padDigits (f : Nat) : ∀ w n, n < 10 ^ w →
    (padDigits w n).foldl (fun acc c => acc * 10 + charDigitVal c) f = f * 10 ^ w + n
  | 0, n, hn => by
    interval_cases n
    simp [padDigits]
  | w + 1, n, hn => by
    have hq : n / 10 ^ w < 10 :=
      Nat.div_lt_of_lt_mul (by rw [pow_succ] at hn; exact hn)
    have hpow : 0 < 10 ^ w := Nat.pos_pow_of_pos w (by norm_num)
    simp only [padDigits, List.foldl_cons]
    rw [charDigitVal_digitChar _ hq,
      foldl_padDigits _ w _ (Nat.mod_lt _ hpow)]
    have hdm : 10 ^ w * (n / 10 ^ w) + n % 10 ^ w = n := Nat.div_add_mod n (10 ^ w)
    calc (f * 10 + n / 10 ^ w) * 10 ^ w + n % 10 ^ w
        = f * (10 ^ w * 10) + (10 ^ w * (n / 10 ^ w) + n % 10 ^ w) := by ring
      _ = f * 10 ^ (w + 1) + n := by rw [hdm, pow_succ]

theorem parseNat_padDigits {w n : Nat} (hw : 0 < w) (hn : n < 10 ^ w) :
    parseNat (padDigits w n) = some n := by
  have hdig : ∀ c ∈ padDigits w n, isDigitCh c = true := padDigits_mem_digit w n hn
  have hstrip : stripChars (padDigits w n) = padDigits w n :=
    stripChars_eq_self (fun c hc => (isDigitCh_facts (hdig c hc)).1)
  have hne : padDigits w n ≠ [] := by
    intro hc
    have := padDigits_length w n
    rw [hc] at this
    simp at this
    omega
  unfold parseNat
  simp only [hstrip]
  rw [if_pos ⟨hne, List.all_eq_true.mpr hdig⟩]
  rw [foldl_padDigits 0 w n hn]
  simp

/-! ## Enumerations and the bar record -/

/-- Modelled from the spec: KL_TYPE (Common/CEnum.py, not under src/), the
K-line period enumeration day/week/month/5-min/15-min/30-min/60-min. -/
inductive KL_TYPE where
  | K_DAY
  | K_WEEK
  | K_MON
  | K_5M
  | K_15M
  | K_30M
  | K_60M
deriving DecidableEq, Repr

/-- Member name of a KL_TYPE value, as Python k_type.name. -/
def KL_TYPE.name : KL_TYPE → String
  | .K_DAY => "K_DAY"
  | .K_WEEK => "K_WEEK"
  | .K_MON => "K_MON"
  | .K_5M => "K_5M"
  | .K_15M => "K_15M"
  | .K_30M => "K_30M"
  | .K_60M => "K_60M"

/-- Modelled from the spec: AUTYPE (Common/CEnum.py, not under src/), the
price-adjustment enumeration none/forward-adjusted/backward-adjusted. -/
inductive AUTYPE where
  | NONE
  | QFQ
  | HFQ
deriving DecidableEq, Repr

/-- Abstraction of Python float text behaviour: a value type with a str()
rendering and a str2float parse; the claims constrain instances only through
the GoodRepr predicate below (repr round-trips, no separator characters). -/
class FloatRepr (F : Type) where
  toChars : F → List Char
  ofChars : List Char → Option F
  zeroF : F
  isZero : F → Bool

/-- Modelled from the spec: CKLine_Unit (KLine/KLine_Unit.py, not under
src/), one bar with timestamp, OHLC prices and the volume/turnover/turnrate
metrics kept in trade_info.metric. -/
structure CKLine_Unit (F : Type) where
  time : CTime
  «open» : F
  high : F
  low : F
  close : F
  volume : F
  turnover : F
  turnrate : F

/-- Python truthiness fallback value or 0 as applied to a float metric. -/
def pyOr {F : Type} [FloatRepr F] (v : F) : F :=
  if FloatRepr.isZero v then FloatRepr.zeroF else v

/-! ## The file system as seen through create_data_file_path -/

/-- Storage key of one series: create_data_file_path maps the (code, k_type,
autype) triple to a distinct path, which this key stands for. -/
structure FileKey where
  code : String
  k_type : KL_TYPE
  autype : AUTYPE
deriving DecidableEq, Repr

/-- State of one file: missing, readable with content, or raising OSError on
open/read. -/
inductive FileState (α : Type) where
  | absent
  | ok (content : α)
  | ioFault

/-- The directory tree under the offline-data root: CSV files (as lines
without their trailing newline) and pickle files (the pickled bar list),
plus a write-permission map modelling OSError on write. -/
structure FS (F : Type) where
  csv : FileKey → FileState (List (List Char))
  pickle : FileKey → FileState (List (CKLine_Unit F))
  csvWritable : FileKey → Bool

def FS.setCsv {F : Type} (fs : FS F) (key : FileKey) (content : List (List Char)) : FS F :=
  { fs with csv := fun k => if k = key then .ok content else fs.csv k }

def FS.setPickle {F : Type} (fs : FS F) (key : FileKey) (content : List (CKLine_Unit F)) : FS F :=
  { fs with pickle := fun k => if k = key then .ok content else fs.pickle k }

/-! ## OfflineDataUtil (OfflineData/offline_data_util.py) -/

namespace OfflineDataUtil

/-- Modelled from the spec: CTime.from_str (Common/CTime.py, not under src/)
parses a timestamp string; the data handled by the claims only contains
daily YYYY-MM-DD strings, for which it yields that date; parse failure
raises (none). -/
def from_str (ts : List Char) : Option CTime :=
  match splitChar '-' ts with
  | [y, m, d] => do
    let yy ← parseNat y
    let mm ← parseNat m
    let dd ← parseNat d
    pure ⟨yy, mm, dd⟩
  | _ => none

/-- Header cells written by save_kline_data_csv. -/
def headerCells : List (List Char) :=
  ["time".data, "open".data, "high".data, "low".data, "close".data,
   "volume".data, "turnover".data, "turnrate".data]

/-- The header line, comma-joined. -/
def headerLine : List Char := joinChar ',' headerCells

/-- The eight cells of one data row: time string, str() of the four prices,
and str() of the three metrics after the or-0 fallback. -/
def rowCells {F : Type} [FloatRepr F] (u : CKLine_Unit F) : List (List Char) :=
  [u.time.toChars,
   FloatRepr.toChars u.«open»,
   FloatRepr.toChars u.high,
   FloatRepr.toChars u.low,
   FloatRepr.toChars u.close,
   FloatRepr.toChars (pyOr u.volume),
   FloatRepr.toChars (pyOr u.turnover),
   FloatRepr.toChars (pyOr u.turnrate)]

/-- One CSV data line, comma-joined. -/
def csvLine {F : Type} [FloatRepr F] (u : CKLine_Unit F) : List Char :=
  joinChar ',' (rowCells u)

/-- Full CSV file contents written for a bar list. -/
def csvContent {F : Type} [FloatRepr F] (kline_data : List (CKLine_Unit F)) :
    List (List Char) :=
  headerLine :: kline_data.map csvLine

/-- save_kline_data_csv: overwrite the CSV file with header plus one row per
bar, in the given order; an OSError while writing propagates (the method has
no try/except). -/
def save_kline_data_csv {F : Type} [FloatRepr F] (key : FileKey)
    (kline_data : List (CKLine_Unit F)) (fs : FS F) : Except PyErr (FS F) :=
  if fs.csvWritable key then .ok (fs.setCsv key (csvContent kline_data))
  else .error .ioError

/-- Modelled from the spec: str2float (Common/func_util.py, not under src/)
parses the decimal text of a float; on failure it raises, which the row
try/except of the loader turns into a skipped row. -/
def str2float {F : Type} [FloatRepr F] (l : List Char) : Option F :=
  FloatRepr.ofChars l

/-- Time-cell parsing of load_kline_data_csv: a 10-character cell is
normalised (slashes to dashes) and split as YYYY-MM-DD; other lengths go
through CTime.from_str. -/
def parseTimeStr (ts : List Char) : Option CTime :=
  if ts.length = 10 then
    match splitChar '-' (replaceChar '/' '-' ts) with
    | [y, m, d] => do
      let yy ← parseNat y
      let mm ← parseNat m
      let dd ← parseNat d
      pure ⟨yy, mm, dd⟩
    | _ => none
  else from_str ts

/-- One line of the CSV body as parsed by load_kline_data_csv: strip, skip
when empty, split on commas, require at least 8 cells, and parse the cells
inside the per-row try/except (any failure skips the row). -/
def parseRow {F : Type} [FloatRepr F] (line : List Char) : Option (CKLine_Unit F) :=
  let s := stripChars line
  if s = [] then none
  else
    match splitChar ',' s with
    | t :: o :: h :: l :: c :: v :: tov :: tr :: _ => do
      let time ← parseTimeStr t
      let vo ← str2float o
      let vh ← str2float h
      let vl ← str2float l
      let vc ← str2float c
      let vv ← str2float v
      let vto ← str2float tov
      let vtr ← str2float tr
      pure ⟨time, vo, vh, vl, vc, vv, vto, vtr⟩
    | _ => none

/-- load_kline_data_csv: a missing file yields the empty list (logged
warning); OSError on open/readlines propagates, because that part is not
inside any try/except; body rows after the header parse individually, bad
rows being skipped. -/
def load_kline_data_csv {F : Type} [FloatRepr F] (key : FileKey) (fs : FS F) :
    Except PyErr (List (CKLine_Unit F)) :=
  match fs.csv key with
  | .absent => .ok []
  | .ioFault => .error .ioError
  | .ok lines => .ok ((lines.drop 1).filterMap parseRow)

/-- save_kline_datapickle (note the source spelling): pickle the bar list;
the embedding treats pickle writes as succeeding, as no claim exercises a
pickle write fault. -/
def save_kline_datapickle {F : Type} [FloatRepr F] (key : FileKey)
    (kline_data : List (CKLine_Unit F)) (fs : FS F) : Except PyErr (FS F) :=
  .ok (fs.setPickle key kline_data)

/-- load_kline_data_pickle: a missing file yields the empty list; any
exception while opening or unpickling is caught and also yields the empty
list. -/
def load_kline_data_pickle {F : Type} [FloatRepr F] (key : FileKey) (fs : FS F) :
    Except PyErr (List (CKLine_Unit F)) :=
  match fs.pickle key with
  | .absent => .ok []
  | .ioFault => .ok []
  | .ok d => .ok d

/-- get_latest_data_time: load in the requested format and return the time
of the last bar, none when the series is empty or the format unsupported. -/
def get_latest_data_time {F : Type} [FloatRepr F] (key : FileKey)
    (data_format : String) (fs : FS F) : Except PyErr (Option CTime) :=
  if data_format = "csv" then
    (load_kline_data_csv key fs).map (fun kd => kd.getLast?.map (fun u => u.time))
  else if data_format = "pickle" then
    (load_kline_data_pickle key fs).map (fun kd => kd.getLast?.map (fun u => u.time))
  else .ok none

/-- Python dict insertion: replace the value in place when the key exists,
append otherwise (insertion order preserved). -/
def upsert {α : Type} (k : List Char) (v : α) :
    List (List Char × α) → List (List Char × α)
  | [] => [(k, v)]
  | (k', v') :: rest => if k' = k then (k', v) :: rest else (k', v') :: upsert k v rest

/-- The unique_data dict of append_kline_data: bars keyed by their time
string, later entries overwriting earlier ones. -/
def mergeByTime {F : Type} (all_data : List (CKLine_Unit F)) :
    List (List Char × CKLine_Unit F) :=
  all_data.foldl (fun m u => upsert u.time.toChars u m) []

/-- The sort relation of sorted(..., key=lambda x: x.time.to_str()). -/
def leRow {F : Type} (a b : CKLine_Unit F) : Prop :=
  lexLe a.time.toChars b.time.toChars = true

instance {F : Type} : DecidableRel (leRow (F := F)) := by
  intro a b
  unfold leRow
  infer_instance

/-- Stable ascending sort by time string (Python sorted is a stable sort;
with the deduplicated keys here any stable sort yields the same list). -/
def sortedByTime {F : Type} (l : List (CKLine_Unit F)) : List (CKLine_Unit F) :=
  l.insertionSort leRow

/-- append_kline_data: load the existing series in the requested format,
concatenate the new bars after it, deduplicate by exact time string with
later (new) entries overwriting, sort ascending by time string, then save.
The pickle save branch invokes self.save_kline_data_pickle, a name the class
does not define (the method is spelt save_kline_datapickle), so that branch
raises AttributeError; an unsupported format only logs and changes
nothing. -/
def append_kline_data {F : Type} [FloatRepr F] (key : FileKey)
    (new_data : List (CKLine_Unit F)) (data_format : String) (fs : FS F) :
    Except PyErr (FS F) :=
  if data_format = "csv" ∨ data_format = "pickle" then do
    let existing_data ←
      if data_format = "csv" then load_kline_data_csv key fs
      else load_kline_data_pickle key fs
    let all_data := existing_data ++ new_data
    let sorted_data := sortedByTime ((mergeByTime all_data).map Prod.snd)
    if data_format = "csv" then save_kline_data_csv key sorted_data fs
    else .error .attributeError
  else .ok fs

end OfflineDataUtil

/-! ## Update statistics (the update_stats dict of each updater) -/

/-- Counters shared by the three updaters; bao_update and reits_update call
the failure list failed_stocks, bond_update calls it failed_codes. -/
structure UpdateStats where
  success_count : Nat
  failed_count : Nat
  skipped_count : Nat
  updated_count : Nat
  new_records : Nat
  failed_stocks : List String
deriving DecidableEq, Repr

/-- The zeroed counters set by __init__ and at the start of each batch. -/
def UpdateStats.init : UpdateStats := ⟨0, 0, 0, 0, 0, []⟩

/-- skipped_count += 1 and return True. -/
def skipOutcome {F : Type} (stats : UpdateStats) (fs : FS F) :
    Bool × UpdateStats × FS F :=
  (true, { stats with skipped_count := stats.skipped_count + 1 }, fs)

/-! ## BaoStockUpdater (OfflineData/bao_update.py) -/

namespace BaoStockUpdater

/-- Default lookback in days when no prior data exists (self.update_days). -/
def update_days : Nat := 30

/-- Body of the try block of get_update_date_range: its first statement is
self.util.get_latest_data_time(code, k_type), which omits the required
positional autype parameter of the utility method, so Python raises
TypeError at the call, before the store is read. -/
def get_update_date_range_try {F : Type} [FloatRepr F] (code : String)
    (k_type : KL_TYPE) (fs : FS F) : Except PyErr (Option (List Char) × List Char) :=
  .error .typeError

/-- get_update_date_range: the try body always raises; the except handler
logs the failure and falls back to the window of the last update_days
days ending today. -/
def get_update_date_range {F : Type} [FloatRepr F] (code : String)
    (k_type : KL_TYPE) (now : CTime) (fs : FS F) : Option (List Char) × List Char :=
  match get_update_date_range_try code k_type fs with
  | .ok r => r
  | .error _ => (some (subDays now update_days).toChars, now.toChars)

/-- update_single_stock. The force-full branch starts with
self.util.delete_kline_data(code, k_type); OfflineDataUtil defines no
delete_kline_data attribute, so that raises AttributeError. The storage
calls of the incremental branch, self.util.append_kline_data(code, k_type,
new_data), omit the required autype parameter and raise TypeError before
anything is written. Both are caught by the enclosing except handler, which
increments failed_count and appends code_KTYPE to failed_stocks. A failed
connect returns False without touching any counter. The provider fetch is a
parameter (connectOk, fetched). -/
def update_single_stock {F : Type} [FloatRepr F] (code : String) (k_type : KL_TYPE)
    (autype : AUTYPE) (force_full_update : Bool) (now : CTime) (connectOk : Bool)
    (fetched : Except PyErr (List (CKLine_Unit F)))
    (stats : UpdateStats) (fs : FS F) : Bool × UpdateStats × FS F :=
  let fail := fun (s : UpdateStats) (f : FS F) =>
    (false,
     { s with failed_count := s.failed_count + 1,
              failed_stocks := s.failed_stocks ++ [code ++ "_" ++ k_type.name] }, f)
  if force_full_update then
    fail stats fs
  else
    match get_update_date_range code k_type now fs with
    | (none, _) =>
      -- the already-current skip of the source; unreachable because the
      -- resolver above always falls back to a concrete window
      skipOutcome stats fs
    | (some _, _) =>
      if !connectOk then (false, stats, fs)
      else
        match fetched with
        | .error _ => fail stats fs
        | .ok new_data =>
          if new_data.isEmpty then skipOutcome stats fs
          else fail stats fs

end BaoStockUpdater

/-! ## AkshareBondUpdater (OfflineData/bond_update.py) -/

namespace AkshareBondUpdater

/-- Default lookback in days when no prior data exists (self.update_days). -/
def update_days : Nat := 90

/-- One row of the ak.bond_zh_hs_daily frame after the updater has
normalised the date column to YYYY-MM-DD: the date plus the five numeric
columns read by the conversion loop (NaN cells never arise in the data the
claims quantify over). -/
structure BondRow (F : Type) where
  date : CTime
  «open» : F
  high : F
  low : F
  close : F
  volume : F

/-- get_update_date_range of the bond updater: read the latest stored
timestamp (correct arity here), start the day after it, signal
already-current when that start lies beyond today, else default to the last
update_days days; load errors propagate (no try/except in this method). -/
def get_update_date_range {F : Type} [FloatRepr F] (code : String) (k_type : KL_TYPE)
    (autype : AUTYPE) (now : CTime) (fs : FS F) :
    Except PyErr (Option (List Char) × List Char) := do
  let latest_time ← OfflineDataUtil.get_latest_data_time ⟨code, k_type, autype⟩ "csv" fs
  let end_date := now.toChars
  match latest_time with
  | some t =>
    let start_date := (nextDay ⟨t.year, t.month, t.day⟩).toChars
    if lexLt end_date start_date then pure (none, end_date)
    else pure (some start_date, end_date)
  | none =>
    pure (some (subDays now update_days).toChars, end_date)

/-- The row-conversion loop of update_single_bond: strptime on the
normalised date string, then a bar with turnover and turnrate fixed at 0;
a parse failure raises inside the try block. -/
def convertBondRows {F : Type} [FloatRepr F] :
    List (BondRow F) → Except PyErr (List (CKLine_Unit F))
  | [] => .ok []
  | r :: rs =>
    match OfflineDataUtil.from_str r.date.toChars with
    | none => .error .valueError
    | some dt => do
      let rest ← convertBondRows rs
      pure (⟨⟨dt.year, dt.month, dt.day⟩, r.«open», r.high, r.low, r.close, r.volume,
             FloatRepr.zeroF, FloatRepr.zeroF⟩ :: rest)

/-- update_single_bond. Non-daily periods are skipped; a requested non-NONE
autype is only warned about, storage always uses NONE. The force-full branch
raises AttributeError at self.util.delete_kline_data (no such attribute on
OfflineDataUtil) and is recorded as failed. The outcome of
_fetch_df_by_candidates is a parameter: none stands for every exchange
candidate failing or returning an empty frame, and leads to a recorded
failure; rows dated on or after the resolved start are merged and counted,
an empty remainder is a skip. -/
def update_single_bond {F : Type} [FloatRepr F] (code : String) (k_type : KL_TYPE)
    (autype : AUTYPE) (force_full_update : Bool) (now : CTime)
    (fetch : Option (String × List (BondRow F)))
    (stats : UpdateStats) (fs : FS F) : Bool × UpdateStats × FS F :=
  let fail := fun (s : UpdateStats) (f : FS F) =>
    (false, { s with failed_count := s.failed_count + 1,
                     failed_stocks := s.failed_stocks ++ [code] }, f)
  if k_type ≠ KL_TYPE.K_DAY then skipOutcome stats fs
  else
    let storage_autype := AUTYPE.NONE
    if force_full_update then
      fail stats fs
    else
      match get_update_date_range code k_type storage_autype now fs with
      | .error _ => fail stats fs
      | .ok (none, _) => skipOutcome stats fs
      | .ok (some start_date, _) =>
        match fetch with
        | none => fail stats fs
        | some (_symbol, rows) =>
          let new_rows := rows.filter (fun r => lexLe start_date r.date.toChars)
          if new_rows.isEmpty then skipOutcome stats fs
          else
            match convertBondRows new_rows with
            | .error _ => fail stats fs
            | .ok new_data =>
              match OfflineDataUtil.append_kline_data
                  ⟨code, k_type, storage_autype⟩ new_data "csv" fs with
              | .error _ => fail stats fs
              | .ok fs' =>
                (true,
                 { stats with
                    updated_count := stats.updated_count + 1,
                    new_records := stats.new_records + new_data.length,
                    success_count := stats.success_count + 1 }, fs')

end AkshareBondUpdater

/-! ## AkshareReitsUpdater (OfflineData/reits_update.py) -/

namespace AkshareReitsUpdater

/-- Default lookback in days when no prior data exists (self.update_days). -/
def update_days : Nat := 60

/-- One row of the ak.reits_hist_em frame after the updater has normalised
the date column to YYYY-MM-DD: date, OHLC, volume, turnover and the
turnrate column (row.get supplies 0.0 when that column is absent, folded
into the field here). -/
structure ReitRow (F : Type) where
  date : CTime
  «open» : F
  high : F
  low : F
  close : F
  volume : F
  turnover : F
  turnrate : F

/-- get_update_date_range of the REIT updater, identical in structure to the
bond one with a 60-day default window. -/
def get_update_date_range {F : Type} [FloatRepr F] (code : String) (k_type : KL_TYPE)
    (autype : AUTYPE) (now : CTime) (fs : FS F) :
    Except PyErr (Option (List Char) × List Char) := do
  let latest_time ← OfflineDataUtil.get_latest_data_time ⟨code, k_type, autype⟩ "csv" fs
  let end_date := now.toChars
  match latest_time with
  | some t =>
    let start_date := (nextDay ⟨t.year, t.month, t.day⟩).toChars
    if lexLt end_date start_date then pure (none, end_date)
    else pure (some start_date, end_date)
  | none =>
    pure (some (subDays now update_days).toChars, end_date)

/-- The row-conversion loop of update_single_reit: CTime.from_str on the
date string and the seven numeric columns; a parse failure raises inside
the try block. -/
def convertReitRows {F : Type} [FloatRepr F] :
    List (ReitRow F) → Except PyErr (List (CKLine_Unit F))
  | [] => .ok []
  | r :: rs =>
    match OfflineDataUtil.from_str r.date.toChars with
    | none => .error .valueError
    | some dt => do
      let rest ← convertReitRows rs
      pure (⟨dt, r.«open», r.high, r.low, r.close, r.volume, r.turnover, r.turnrate⟩ :: rest)

/-- update_single_reit. Non-daily periods are skipped; storage always uses
autype NONE. The force-full branch raises AttributeError at
self.util.delete_kline_data and is recorded as failed. An empty frame, or
no row on or after the resolved start, is a skip. In the incremental branch
with data, append_kline_data (called with correct arity here) writes the
merged series, after which the log message f-string evaluates the undefined
name ktype and raises NameError: the handler then records the task as
failed even though the write persists. -/
def update_single_reit {F : Type} [FloatRepr F] (code : String) (k_type : KL_TYPE)
    (autype : AUTYPE) (force_full_update : Bool) (now : CTime)
    (fetch : Except PyErr (List (ReitRow F)))
    (stats : UpdateStats) (fs : FS F) : Bool × UpdateStats × FS F :=
  let fail := fun (s : UpdateStats) (f : FS F) =>
    (false,
     { s with failed_count := s.failed_count + 1,
              failed_stocks := s.failed_stocks ++ [code ++ "_" ++ k_type.name] }, f)
  if k_type ≠ KL_TYPE.K_DAY then skipOutcome stats fs
  else
    let storage_autype := AUTYPE.NONE
    if force_full_update then
      fail stats fs
    else
      match get_update_date_range code k_type storage_autype now fs with
      | .error _ => fail stats fs
      | .ok (none, _) => skipOutcome stats fs
      | .ok (some start_date, _) =>
        match fetch with
        | .error _ => fail stats fs
        | .ok data_df =>
          if data_df.isEmpty then skipOutcome stats fs
          else
            let new_data_df := data_df.filter (fun r => lexLe start_date r.date.toChars)
            if new_data_df.isEmpty then skipOutcome stats fs
            else
              match convertReitRows new_data_df with
              | .error _ => fail stats fs
              | .ok new_data =>
                match OfflineDataUtil.append_kline_data
                    ⟨code, k_type, storage_autype⟩ new_data "csv" fs with
                | .error _ => fail stats fs
                | .ok fs' => fail stats fs'

end AkshareReitsUpdater

/-! ## Conditions tying the float abstraction to real Python floats -/

/-- GoodRepr: str() of a float re-parses to the same value (Python repr
round-trips), contains neither commas nor whitespace, and a truthiness-zero
value is the zero value (so the or-0 fallback is value-preserving). -/
def GoodRepr (F : Type) [FloatRepr F] : Prop :=
  (∀ x : F, FloatRepr.ofChars (FloatRepr.toChars x) = some x)
  ∧ (∀ x : F, ∀ c ∈ FloatRepr.toChars x, (c == ',') = false ∧ isSpacePy c = false)
  ∧ (∀ x : F, FloatRepr.isZero x = true → x = FloatRepr.zeroF)

theorem pyOr_eq_self {F : Type} [FloatRepr F] (hG : GoodRepr F) (v : F) :
    pyOr v = v := by
  unfold pyOr
  cases hz : FloatRepr.isZero v with
  | false => simp
  | true => simp [hG.2.2 v hz]

/-! ## Round trip of one CSV row -/

theorem toChars_cell_facts {t : CTime} (ht : t.wf) :
    ∀ c ∈ t.toChars, (c == ',') = false ∧ isSpacePy c = false := by
  intro c hc
  rcases toChars_mem ht c hc with hd | hd
  · exact ⟨(isDigitCh_facts hd).2.1, (isDigitCh_facts hd).1⟩
  · subst hd
    exact ⟨by decide, by decide⟩

theorem toChars_no_slash {t : CTime} (ht : t.wf) :
    ∀ c ∈ t.toChars, (c == '/') = false := by
  intro c hc
  rcases toChars_mem ht c hc with hd | hd
  · exact (isDigitCh_facts hd).2.2.1
  · subst hd
    decide

theorem padDigits_no_dash {w n : Nat} (hn : n < 10 ^ w) :
    ∀ c ∈ padDigits w n, (c == '-') = false :=
  fun c hc => (isDigitCh_facts (padDigits_mem_digit w n hn c hc)).2.2.2

theorem splitChar_toChars {t : CTime} (ht : t.wf) :
    splitChar '-' t.toChars = [padDigits 4 t.year, padDigits 2 t.month, padDigits 2 t.day] := by
  obtain ⟨hy, hm, hd⟩ := ht
  unfold CTime.toChars
  rw [splitChar_append_sep (padDigits_no_dash (by norm_num; omega)),
    splitChar_append_sep (padDigits_no_dash (by norm_num; omega)),
    splitChar_no_sep (padDigits_no_dash (by norm_num; omega))]

theorem parseTimeStr_toChars {t : CTime} (ht : t.wf) :
    OfflineDataUtil.parseTimeStr t.toChars = some t := by
  have hs := splitChar_toChars ht
  have hr : replaceChar '/' '-' t.toChars = t.toChars :=
    replaceChar_eq_self (toChars_no_slash ht)
  obtain ⟨hy, hm, hd⟩ := ht
  have hy' : t.year < 10 ^ 4 := by norm_num; omega
  have hm' : t.month < 10 ^ 2 := by norm_num; omega
  have hd' : t.day < 10 ^ 2 := by norm_num; omega
  unfold OfflineDataUtil.parseTimeStr
  rw [if_pos (toChars_length t), hr, hs]
  simp only [parseNat_padDigits (by norm_num) hy',
    parseNat_padDigits (by norm_num) hm',
    parseNat_padDigits (by norm_num) hd']
  rfl

theorem joinChar_mem {sep : Char} : ∀ {cells : List (List Char)} {c : Char},
    c ∈ joinChar sep cells → c = sep ∨ ∃ p ∈ cells, c ∈ p
  | [], c, hc => by simp [joinChar] at hc
  | [p], c, hc => Or.inr ⟨p, List.mem_singleton_self p, hc⟩
  | p :: q :: cells, c, hc => by
    rcases List.mem_append.mp hc with hp | hrest
    · exact Or.inr ⟨p, List.mem_cons_self _ _, hp⟩
    · rcases List.mem_cons.mp hrest with hsep | hj
      · exact Or.inl hsep
      · rcases joinChar_mem hj with hs | ⟨r, hr, hcr⟩
        · exact Or.inl hs
        · exact Or.inr ⟨r, List.mem_cons_of_mem p hr, hcr⟩

theorem rowCells_facts {F : Type} [FloatRepr F] (hG : GoodRepr F) {u : CKLine_Unit F}
    (hu : u.time.wf) :
    ∀ p ∈ OfflineDataUtil.rowCells u, ∀ c ∈ p, (c == ',') = false ∧ isSpacePy c = false := by
  intro p hp c hc
  unfold OfflineDataUtil.rowCells at hp
  simp only [List.mem_cons, List.not_mem_nil, or_false] at hp
  rcases hp with h | h | h | h | h | h | h | h <;> subst h
  · exact toChars_cell_facts hu c hc
  all_goals exact hG.2.1 _ c hc

theorem parseRow_csvLine {F : Type} [FloatRepr F] (hG : GoodRepr F) {u : CKLine_Unit F}
    (hu : u.time.wf) :
    OfflineDataUtil.parseRow (OfflineDataUtil.csvLine u) = some u := by
  have hcells := rowCells_facts hG hu
  have hsplit : splitChar ',' (OfflineDataUtil.csvLine u) = OfflineDataUtil.rowCells u :=
    splitChar_joinChar (by simp [OfflineDataUtil.rowCells])
      (fun p hp c hc => (hcells p hp c hc).1)
  have hstrip : stripChars (OfflineDataUtil.csvLine u) = OfflineDataUtil.csvLine u := by
    apply stripChars_eq_self
    intro c hc
    rcases joinChar_mem hc with hs | ⟨p, hp, hcp⟩
    · subst hs
      decide
    · exact (hcells p hp c hcp).2
  have hne : OfflineDataUtil.csvLine u ≠ [] := by
    intro hcLine
    rw [hcLine] at hsplit
    simp [splitChar, OfflineDataUtil.rowCells] at hsplit
  unfold OfflineDataUtil.parseRow
  rw [hstrip, if_neg hne, hsplit]
  show (do
    let time ← OfflineDataUtil.parseTimeStr u.time.toChars
    let vo ← OfflineDataUtil.str2float (FloatRepr.toChars u.«open»)
    let vh ← OfflineDataUtil.str2float (FloatRepr.toChars u.high)
    let vl ← OfflineDataUtil.str2float (FloatRepr.toChars u.low)
    let vc ← OfflineDataUtil.str2float (FloatRepr.toChars u.close)
    let vv ← OfflineDataUtil.str2float (FloatRepr.toChars (pyOr u.volume))
    let vto ← OfflineDataUtil.str2float (FloatRepr.toChars (pyOr u.turnover))
    let vtr ← OfflineDataUtil.str2float (FloatRepr.toChars (pyOr u.turnrate))
    pure (⟨time, vo, vh, vl, vc, vv, vto, vtr⟩ : CKLine_Unit F)) = some u
  unfold OfflineDataUtil.str2float
  rw [parseTimeStr_toChars hu]
  simp only [hG.1, pyOr_eq_self hG, Option.some_bind]
  rfl

theorem filterMap_parseRow {F : Type} [FloatRepr F] (hG : GoodRepr F) :
    ∀ {data : List (CKLine_Unit F)}, (∀ u ∈ data, u.time.wf) →
    List.filterMap OfflineDataUtil.parseRow (data.map OfflineDataUtil.csvLine) = data
  | [], _ => rfl
  | u :: data, h => by
    simp only [List.map_cons, List.filterMap_cons,
      parseRow_csvLine hG (h u (List.mem_cons_self u data))]
    rw [filterMap_parseRow hG (fun v hv => h v (List.mem_cons_of_mem u hv))]

theorem load_after_save {F : Type} [FloatRepr F] (hG : GoodRepr F) (key : FileKey)
    {data : List (CKLine_Unit F)} {fs fs' : FS F}
    (hwf : ∀ u ∈ data, u.time.wf)
    (hsave : OfflineDataUtil.save_kline_data_csv key data fs = .ok fs') :
    OfflineDataUtil.load_kline_data_csv key fs' = .ok data := by
  unfold OfflineDataUtil.save_kline_data_csv at hsave
  by_cases hw : fs.csvWritable key
  · rw [if_pos hw] at hsave
    injection hsave with h
    subst h
    simp only [OfflineDataUtil.load_kline_data_csv, FS.setCsv, OfflineDataUtil.csvContent,
      if_true, List.drop_succ_cons, List.drop_zero]
    rw [filterMap_parseRow hG hwf]
  · rw [if_neg hw] at hsave
    cases hsave

/-! ## Properties of the time-keyed merge of append_kline_data -/

/-- Lookup in the association list standing for the Python dict. -/
def lookupA {α : Type} (t : List Char) : List (List Char × α) → Option α
  | [] => none
  | (k, v) :: rest => if k = t then some v else lookupA t rest

/-- Specification device: the last bar of a list carrying a given time
string, the value last-writer-wins semantics must produce there. -/
def lastWith {F : Type} (t : List Char) : List (CKLine_Unit F) → Option (CKLine_Unit F)
  | [] => none
  | u :: l =>
    match lastWith t l with
    | some v => some v
    | none => if u.time.toChars = t then some u else none

theorem lookupA_upsert {α : Type} (t k : List Char) (v : α) :
    ∀ m : List (List Char × α),
    lookupA t (OfflineDataUtil.upsert k v m) = if k = t then some v else lookupA t m
  | [] => by unfold OfflineDataUtil.upsert lookupA; rfl
  | (k', v') :: rest => by
    unfold OfflineDataUtil.upsert
    by_cases hkk : k' = k
    · subst hkk
      simp only [if_pos rfl]
      unfold lookupA
      by_cases hkt : k' = t <;> simp [hkt]
    · rw [if_neg hkk]
      unfold lookupA
      by_cases hkt : k' = t
      · subst hkt
        have : ¬ k = k' := fun hc => hkk hc.symm
        simp [this]
      · simp only [if_neg hkt]
        exact lookupA_upsert t k v rest

theorem foldl_upsert_lookup {F : Type} (t : List Char) :
    ∀ (l : List (CKLine_Unit F)) (acc : List (List Char × CKLine_Unit F)),
    lookupA t (l.foldl (fun m u => OfflineDataUtil.upsert u.time.toChars u m) acc) =
      match lastWith t l with
      | some v => some v
      | none => lookupA t acc
  | [], acc => rfl
  | u :: l, acc => by
    rw [List.foldl_cons, foldl_upsert_lookup t l]
    have hLcons : lastWith t (u :: l) =
        match lastWith t l with
        | some v => some v
        | none => if u.time.toChars = t then some u else none := rfl
    rw [hLcons]
    cases hL : lastWith t l with
    | some v => rfl
    | none =>
      rw [lookupA_upsert]
      by_cases hut : u.time.toChars = t <;> simp [hut]

theorem mergeByTime_lookup {F : Type} (t : List Char) (l : List (CKLine_Unit F)) :
    lookupA t (OfflineDataUtil.mergeByTime l) = lastWith t l := by
  unfold OfflineDataUtil.mergeByTime
  rw [foldl_upsert_lookup]
  cases hL : lastWith t l <;> rfl

/-- Keys of the association list. -/
def keysA {α : Type} (m : List (List Char × α)) : List (List Char) :=
  m.map Prod.fst

theorem upsert_keys_sub {α : Type} (k : List Char) (v : α) :
    ∀ m : List (List Char × α), ∀ x ∈ keysA (OfflineDataUtil.upsert k v m),
      x ∈ keysA m ∨ x = k
  | [], x, hx => by
    unfold OfflineDataUtil.upsert keysA at hx
    simp at hx
    exact Or.inr hx
  | (k', v') :: rest, x, hx => by
    unfold OfflineDataUtil.upsert at hx
    by_cases hkk : k' = k
    · rw [if_pos hkk] at hx
      unfold keysA at hx ⊢
      simp only [List.map_cons, List.mem_cons] at hx ⊢
      rcases hx with hx | hx
      · exact Or.inl (Or.inl (hkk ▸ hx))
      · exact Or.inl (Or.inr hx)
    · rw [if_neg hkk] at hx
      unfold keysA at hx ⊢
      simp only [List.map_cons, List.mem_cons] at hx ⊢
      rcases hx with hx | hx
      · exact Or.inl (Or.inl hx)
      · rcases upsert_keys_sub k v rest x hx with h | h
        · exact Or.inl (Or.inr h)
        · exact Or.inr h

theorem upsert_keys_nodup {α : Type} (k : List Char) (v : α) :
    ∀ m : List (List Char × α), (keysA m).Nodup →
      (keysA (OfflineDataUtil.upsert k v m)).Nodup
  | [], _ => by
    unfold OfflineDataUtil.upsert keysA
    simp
  | (k', v') :: rest, hnd => by
    unfold OfflineDataUtil.upsert
    unfold keysA at hnd
    simp only [List.map_cons, List.nodup_cons] at hnd
    by_cases hkk : k' = k
    · rw [if_pos hkk]
      unfold keysA
      simp only [List.map_cons, List.nodup_cons]
      exact ⟨hkk ▸ hnd.1, hnd.2⟩
    · rw [if_neg hkk]
      unfold keysA
      simp only [List.map_cons, List.nodup_cons]
      constructor
      · intro hc
        rcases upsert_keys_sub k v rest k' hc with h | h
        · exact hnd.1 h
        · exact hkk h
      · exact upsert_keys_nodup k v rest hnd.2

theorem upsert_snd_key {α : Type} (f : α → List Char) (k : List Char) (v : α)
    (hv : f v = k) :
    ∀ m : List (List Char × α), (∀ p ∈ m, f p.2 = p.1) →
      ∀ p ∈ OfflineDataUtil.upsert k v m, f p.2 = p.1
  | [], _, p, hp => by
    unfold OfflineDataUtil.upsert at hp
    simp at hp
    subst hp
    exact hv
  | (k', v') :: rest, hm, p, hp => by
    unfold OfflineDataUtil.upsert at hp
    by_cases hkk : k' = k
    · rw [if_pos hkk] at hp
      rcases List.mem_cons.mp hp with hp | hp
      · subst hp
        show f v = k'
        rw [hv, hkk]
      · exact hm p (List.mem_cons_of_mem _ hp)
    · rw [if_neg hkk] at hp
      rcases List.mem_cons.mp hp with hp | hp
      · subst hp
        exact hm _ (List.mem_cons_self _ _)
      · exact upsert_snd_key f k v hv rest
          (fun q hq => hm q (List.mem_cons_of_mem _ hq)) p hp

theorem mergeByTime_keys_nodup {F : Type} (l : List (CKLine_Unit F)) :
    (keysA (OfflineDataUtil.mergeByTime l)).Nodup := by
  unfold OfflineDataUtil.mergeByTime
  suffices h : ∀ (l : List (CKLine_Unit F)) (acc : List (List Char × CKLine_Unit F)),
      (keysA acc).Nodup →
      (keysA (l.foldl (fun m u => OfflineDataUtil.upsert u.time.toChars u m) acc)).Nodup by
    exact h l [] (by simp [keysA])
  intro l
  induction l with
  | nil => exact fun acc h => h
  | cons u l ih =>
    intro acc hacc
    rw [List.foldl_cons]
    exact ih _ (upsert_keys_nodup _ _ _ hacc)

theorem mergeByTime_inv {F : Type} (l : List (CKLine_Unit F)) :
    ∀ p ∈ OfflineDataUtil.mergeByTime l, p.2.time.toChars = p.1 := by
  unfold OfflineDataUtil.mergeByTime
  suffices h : ∀ (l : List (CKLine_Unit F)) (acc : List (List Char × CKLine_Unit F)),
      (∀ p ∈ acc, p.2.time.toChars = p.1) →
      ∀ p ∈ l.foldl (fun m u => OfflineDataUtil.upsert u.time.toChars u m) acc,
        p.2.time.toChars = p.1 by
    exact h l [] (by simp)
  intro l
  induction l with
  | nil => exact fun acc h => h
  | cons u l ih =>
    intro acc hacc
    rw [List.foldl_cons]
    exact ih _ (upsert_snd_key (fun u => u.time.toChars) _ _ rfl acc hacc)

theorem lookupA_mem_iff {F : Type} :
    ∀ {m : List (List Char × CKLine_Unit F)},
    (∀ p ∈ m, p.2.time.toChars = p.1) → (keysA m).Nodup →
    ∀ (t : List Char) (u : CKLine_Unit F),
    (lookupA t m = some u ↔ u ∈ m.map Prod.snd ∧ u.time.toChars = t)
  | [], _, _, t, u => by simp [lookupA]
  | (k, v) :: rest, hinv, hnd, t, u => by
    have hkv : v.time.toChars = k := hinv (k, v) (List.mem_cons_self _ _)
    unfold keysA at hnd
    simp only [List.map_cons, List.nodup_cons] at hnd
    unfold lookupA
    by_cases hkt : k = t
    · subst hkt
      rw [if_pos (rfl : k = k)]
      simp only [List.map_cons, List.mem_cons]
      constructor
      · intro h
        injection h with h
        subst h
        exact ⟨Or.inl rfl, hkv⟩
      · rintro ⟨hmem, hut⟩
        rcases hmem with hm | hm
        · rw [hm]
        · exfalso
          rcases List.mem_map.mp hm with ⟨q, hq, hq2⟩
          have hqk : q.2.time.toChars = q.1 := hinv q (List.mem_cons_of_mem _ hq)
          apply hnd.1
          refine List.mem_map.mpr ⟨q, hq, ?_⟩
          rw [← hqk, hq2, hut]
    · rw [if_neg hkt,
        lookupA_mem_iff (fun p hp => hinv p (List.mem_cons_of_mem _ hp)) hnd.2 t u]
      simp only [List.map_cons, List.mem_cons]
      constructor
      · rintro ⟨hm, hut⟩
        exact ⟨Or.inr hm, hut⟩
      · rintro ⟨hm, hut⟩
        rcases hm with hm | hm
        · exfalso
          apply hkt
          rw [← hkv, ← hm, hut]
        · exact ⟨hm, hut⟩

theorem mergeByTime_vals_nodup {F : Type} (l : List (CKLine_Unit F)) :
    ((OfflineDataUtil.mergeByTime l).map Prod.snd).Nodup := by
  have hmapeq : keysA (OfflineDataUtil.mergeByTime l) =
      ((OfflineDataUtil.mergeByTime l).map Prod.snd).map (fun u => u.time.toChars) := by
    unfold keysA
    rw [List.map_map]
    exact List.map_congr_left (fun p hp => (mergeByTime_inv l p hp).symm)
  have := mergeByTime_keys_nodup l
  rw [hmapeq] at this
  exact this.of_map _

theorem vals_time_inj {F : Type} (l : List (CKLine_Unit F)) {u v : CKLine_Unit F}
    (hu : u ∈ (OfflineDataUtil.mergeByTime l).map Prod.snd)
    (hv : v ∈ (OfflineDataUtil.mergeByTime l).map Prod.snd)
    (htc : u.time.toChars = v.time.toChars) : u = v := by
  have h1 := (lookupA_mem_iff (mergeByTime_inv l) (mergeByTime_keys_nodup l)
    u.time.toChars u).mpr ⟨hu, rfl⟩
  have h2 := (lookupA_mem_iff (mergeByTime_inv l) (mergeByTime_keys_nodup l)
    u.time.toChars v).mpr ⟨hv, htc.symm⟩
  rw [h1] at h2
  injection h2

theorem lastWith_mem {F : Type} {t : List Char} :
    ∀ {l : List (CKLine_Unit F)} {v : CKLine_Unit F},
    lastWith t l = some v → v ∈ l ∧ v.time.toChars = t
  | [], v, h => by simp [lastWith] at h
  | u :: l, v, h => by
    have hcons : lastWith t (u :: l) =
        match lastWith t l with
        | some w => some w
        | none => if u.time.toChars = t then some u else none := rfl
    rw [hcons] at h
    cases hL : lastWith t l with
    | some w =>
      rw [hL] at h
      injection h with h
      subst h
      have := lastWith_mem hL
      exact ⟨List.mem_cons_of_mem _ this.1, this.2⟩
    | none =>
      rw [hL] at h
      by_cases hut : u.time.toChars = t
      · rw [if_pos hut] at h
        injection h with h
        subst h
        exact ⟨List.mem_cons_self _ _, hut⟩
      · rw [if_neg hut] at h
        cases h

theorem lastWith_isSome_of_mem {F : Type} {u : CKLine_Unit F} :
    ∀ {l : List (CKLine_Unit F)}, u ∈ l → ∃ v, lastWith u.time.toChars l = some v
  | [], h => absurd h (List.not_mem_nil u)
  | w :: l, h => by
    have hcons : lastWith u.time.toChars (w :: l) =
        match lastWith u.time.toChars l with
        | some v => some v
        | none => if w.time.toChars = u.time.toChars then some w else none := rfl
    cases hL : lastWith u.time.toChars l with
    | some v =>
      refine ⟨v, ?_⟩
      rw [hcons, hL]
    | none =>
      rcases List.mem_cons.mp h with hu | hu
      · refine ⟨w, ?_⟩
        rw [hcons, hL]
        simp [hu]
      · rcases lastWith_isSome_of_mem hu with ⟨v, hv⟩
        rw [hv] at hL
        cases hL

instance leRow_total {F : Type} : IsTotal (CKLine_Unit F) OfflineDataUtil.leRow where
  total := by
    intro a b
    unfold OfflineDataUtil.leRow lexLe
    cases h : lexLt b.time.toChars a.time.toChars with
    | false => exact Or.inl (by simp [h])
    | true => exact Or.inr (by simp [lexLt_asymm h])

instance leRow_trans {F : Type} : IsTrans (CKLine_Unit F) OfflineDataUtil.leRow where
  trans := by
    intro a b c hab hbc
    unfold OfflineDataUtil.leRow lexLe at hab hbc ⊢
    simp only [Bool.not_eq_true'] at hab hbc ⊢
    cases hca : lexLt c.time.toChars a.time.toChars with
    | false => rfl
    | true =>
      exfalso
      cases hba : lexLt a.time.toChars b.time.toChars with
      | true =>
        have := lexLt_trans hca hba
        rw [hbc] at this
        cases this
      | false =>
        have heq : a.time.toChars = b.time.toChars := lexLt_antisymm hba hab
        rw [heq] at hca
        rw [hbc] at hca
        cases hca

/-! ## The stored list produced by append_kline_data -/

/-- The sorted deduplicated list that append_kline_data saves. -/
def mergedList {F : Type} (all_data : List (CKLine_Unit F)) : List (CKLine_Unit F) :=
  OfflineDataUtil.sortedByTime ((OfflineDataUtil.mergeByTime all_data).map Prod.snd)

theorem mergedList_perm {F : Type} (all_data : List (CKLine_Unit F)) :
    List.Perm (mergedList all_data) ((OfflineDataUtil.mergeByTime all_data).map Prod.snd) :=
  List.perm_insertionSort _ _

theorem mergedList_nodup {F : Type} (all_data : List (CKLine_Unit F)) :
    (mergedList all_data).Nodup :=
  (mergedList_perm all_data).symm.nodup (mergeByTime_vals_nodup all_data)

theorem mergedList_find? {F : Type} (all_data : List (CKLine_Unit F)) (t : List Char) :
    (mergedList all_data).find? (fun u => u.time.toChars == t) = lastWith t all_data := by
  rw [← mergeByTime_lookup t all_data]
  have hmem : ∀ {x : CKLine_Unit F}, x ∈ mergedList all_data ↔
      x ∈ (OfflineDataUtil.mergeByTime all_data).map Prod.snd :=
    fun {x} => (mergedList_perm all_data).mem_iff
  cases hlk : lookupA t (OfflineDataUtil.mergeByTime all_data) with
  | some u =>
    have hu := (lookupA_mem_iff (mergeByTime_inv all_data)
      (mergeByTime_keys_nodup all_data) t u).mp hlk
    cases hf : (mergedList all_data).find? (fun u => u.time.toChars == t) with
    | none =>
      exfalso
      have hnone := List.find?_eq_none.mp hf u (hmem.mpr hu.1)
      simp only [beq_iff_eq] at hnone
      exact hnone hu.2
    | some w =>
      have hw : w ∈ mergedList all_data := List.mem_of_find?_eq_some hf
      have hpw := @List.find?_some _ (fun u : CKLine_Unit F => u.time.toChars == t)
        w _ hf
      have hwt : w.time.toChars = t := by simpa using hpw
      have hlw := (lookupA_mem_iff (mergeByTime_inv all_data)
        (mergeByTime_keys_nodup all_data) t w).mpr ⟨hmem.mp hw, hwt⟩
      rw [hlk] at hlw
      injection hlw with hlw
      rw [hlw]
  | none =>
    apply List.find?_eq_none.mpr
    intro x hx
    simp only [beq_iff_eq]
    intro hxt
    have := (lookupA_mem_iff (mergeByTime_inv all_data)
      (mergeByTime_keys_nodup all_data) t x).mpr ⟨hmem.mp hx, hxt⟩
    rw [hlk] at this
    cases this

theorem mergedList_sorted_le {F : Type} (all_data : List (CKLine_Unit F)) :
    List.Sorted OfflineDataUtil.leRow (mergedList all_data) :=
  List.sorted_insertionSort _ _

theorem mergedList_sorted_strict {F : Type} (all_data : List (CKLine_Unit F)) :
    (mergedList all_data).Pairwise
      (fun a b => lexLt a.time.toChars b.time.toChars = true) := by
  have hs : (mergedList all_data).Pairwise OfflineDataUtil.leRow :=
    mergedList_sorted_le all_data
  have hn : (mergedList all_data).Pairwise (fun a b => a ≠ b) := mergedList_nodup all_data
  refine (hs.and hn).imp_of_mem ?_
  intro a b ha hb hab
  have hmem : ∀ {x : CKLine_Unit F}, x ∈ mergedList all_data ↔
      x ∈ (OfflineDataUtil.mergeByTime all_data).map Prod.snd :=
    fun {x} => (mergedList_perm all_data).mem_iff
  by_cases htc : a.time.toChars = b.time.toChars
  · exact absurd (vals_time_inj all_data (hmem.mp ha) (hmem.mp hb) htc) hab.2
  · have hle := hab.1
    unfold OfflineDataUtil.leRow lexLe at hle
    simp only [Bool.not_eq_true'] at hle
    cases h : lexLt a.time.toChars b.time.toChars with
    | true => rfl
    | false => exact absurd (lexLt_antisymm h hle) htc

theorem mergedList_subset {F : Type} (all_data : List (CKLine_Unit F)) :
    ∀ u ∈ mergedList all_data, u ∈ all_data := by
  intro u hu
  have hval := (mergedList_perm all_data).mem_iff.mp hu
  have hlk := (lookupA_mem_iff (mergeByTime_inv all_data)
    (mergeByTime_keys_nodup all_data) u.time.toChars u).mpr ⟨hval, rfl⟩
  rw [mergeByTime_lookup] at hlk
  exact (lastWith_mem hlk).1

theorem mergedList_complete {F : Type} (all_data : List (CKLine_Unit F)) :
    ∀ u ∈ all_data, ∃ v ∈ mergedList all_data, v.time.toChars = u.time.toChars := by
  intro u hu
  rcases lastWith_isSome_of_mem hu with ⟨v, hv⟩
  have hlk := hv
  rw [← mergeByTime_lookup] at hlk
  have hvm := (lookupA_mem_iff (mergeByTime_inv all_data)
    (mergeByTime_keys_nodup all_data) u.time.toChars v).mp hlk
  exact ⟨v, (mergedList_perm all_data).mem_iff.mpr hvm.1, hvm.2⟩

/-- In csv format append_kline_data is: load, merge, save. -/
theorem append_csv_eq {F : Type} [FloatRepr F] (key : FileKey)
    (new_data : List (CKLine_Unit F)) {fs : FS F} {existing : List (CKLine_Unit F)}
    (hload : OfflineDataUtil.load_kline_data_csv key fs = .ok existing) :
    OfflineDataUtil.append_kline_data key new_data "csv" fs =
      OfflineDataUtil.save_kline_data_csv key (mergedList (existing ++ new_data)) fs := by
  unfold OfflineDataUtil.append_kline_data
  rw [hload]
  rfl

/-! ## Witness instantiation of the float abstraction -/

/-- Witness value type for floats: naturals below one million, rendered as
six digits (every property proved over the abstraction is instantiated here
for the concrete scenario checks). -/
abbrev FinF : Type := Fin 1000000

instance : FloatRepr FinF where
  toChars x := padDigits 6 x.val
  ofChars l := (parseNat l).bind (fun n => if h : n < 1000000 then some ⟨n, h⟩ else none)
  zeroF := ⟨0, by norm_num⟩
  isZero x := x.val == 0

theorem goodRepr_FinF : GoodRepr FinF := by
  refine ⟨?_, ?_, ?_⟩
  · intro x
    have hx : x.val < 10 ^ 6 := by norm_num [x.isLt]
    show (parseNat (padDigits 6 x.val)).bind _ = some x
    rw [parseNat_padDigits (by norm_num) hx]
    simp [Option.bind, x.isLt]
  · intro x c hc
    have hx : x.val < 10 ^ 6 := by norm_num [x.isLt]
    have hd := padDigits_mem_digit 6 x.val hx c hc
    exact ⟨(isDigitCh_facts hd).2.1, (isDigitCh_facts hd).1⟩
  · intro x hz
    have hv : (x.val == 0) = true := hz
    exact Fin.ext (by simpa using hv)

/-- A bar whose numeric fields all carry the same value, to build scenario
inputs where only the close is prescribed. -/
def mkBar (t : CTime) (v : FinF) : CKLine_Unit FinF :=
  ⟨t, v, v, v, v, v, v, v⟩

/-- A file system with nothing stored and everything writable. -/
def emptyFS : FS FinF :=
  ⟨fun _ => .absent, fun _ => .absent, fun _ => true⟩

/-! ## Concrete objects for scenario checks -/

/-- The date 2024-03-10 of the spec scenarios. -/
def d0310 : CTime := ⟨2024, 3, 10⟩

/-- A stock series key. -/
def keyStock : FileKey := ⟨"sh.600000", KL_TYPE.K_DAY, AUTYPE.QFQ⟩

/-- A bond series key (storage autype is always NONE). -/
def keyBond : FileKey := ⟨"019547", KL_TYPE.K_DAY, AUTYPE.NONE⟩

/-- A REIT series key. -/
def keyReit : FileKey := ⟨"508000", KL_TYPE.K_DAY, AUTYPE.NONE⟩

/-- Store holding one stock bar dated 2024-03-10. -/
def fsStock0310 : FS FinF :=
  emptyFS.setCsv keyStock (OfflineDataUtil.csvContent [mkBar d0310 ⟨10, by norm_num⟩])

/-- Store holding one bond bar dated 2024-03-10. -/
def fsBond0310 : FS FinF :=
  emptyFS.setCsv keyBond (OfflineDataUtil.csvContent [mkBar d0310 ⟨10, by norm_num⟩])

/-- A file system on which every open and every write raises OSError. -/
def fsFault : FS FinF :=
  ⟨fun _ => .ioFault, fun _ => .ioFault, fun _ => false⟩

/-! ## C9: resolver with no persisted data -/

/-- C9: for a series key with no persisted data (latest timestamp none),
each updater resolver returns the inclusive window of the default lookback
ending now and never the already-current sentinel: 30 days for stocks (via
the TypeError fallback, which yields the same window no matter the store),
90 for bonds, 60 for REITs. -/
theorem C9_resolver_no_data {F : Type} [FloatRepr F]
    (code : String) (k_type : KL_TYPE) (autype : AUTYPE) (now : CTime) (fs : FS F)
    (hnone : OfflineDataUtil.get_latest_data_time ⟨code, k_type, autype⟩ "csv" fs
      = .ok none) :
    BaoStockUpdater.get_update_date_range code k_type now fs
      = (some (subDays now 30).toChars, now.toChars)
    ∧ AkshareBondUpdater.get_update_date_range code k_type autype now fs
      = .ok (some (subDays now 90).toChars, now.toChars)
    ∧ AkshareReitsUpdater.get_update_date_range code k_type autype now fs
      = .ok (some (subDays now 60).toChars, now.toChars) := by
  refine ⟨rfl, ?_, ?_⟩
  · unfold AkshareBondUpdater.get_update_date_range
    rw [hnone]
    rfl
  · unfold AkshareReitsUpdater.get_update_date_range
    rw [hnone]
    rfl

/-- C9 witness: empty store, lookback 30 days, now 2024-03-10: the stock
resolver returns [2024-02-09, 2024-03-10] and no sentinel. -/
theorem C9_witness :
    OfflineDataUtil.get_latest_data_time keyStock "csv" emptyFS = .ok none
    ∧ BaoStockUpdater.get_update_date_range "sh.600000" KL_TYPE.K_DAY d0310 emptyFS
      = (some (subDays d0310 30).toChars, d0310.toChars)
    ∧ subDays d0310 30 = ⟨2024, 2, 9⟩
    ∧ (subDays d0310 30).to_str = "2024-02-09"
    ∧ d0310.to_str = "2024-03-10" :=
  ⟨rfl,
   (C9_resolver_no_data "sh.600000" KL_TYPE.K_DAY AUTYPE.QFQ d0310 emptyFS rfl).1,
   rfl, rfl, rfl⟩

/-! ## C2: the already-current sentinel -/

/-- C2 counterexample: the claim covers update_single_stock as well, but
with a stored stock series whose latest bar is 2024-03-10 and now equal to
2024-03-10 the stock resolver does not return the sentinel: it returns the
fallback 30-day window, because its latest-timestamp lookup raises
TypeError (missing autype argument), which it swallows. -/
theorem C2_counterexample :
    OfflineDataUtil.get_latest_data_time keyStock "csv" fsStock0310 = .ok (some d0310)
    ∧ BaoStockUpdater.get_update_date_range "sh.600000" KL_TYPE.K_DAY d0310 fsStock0310
      = (some (subDays d0310 30).toChars, d0310.toChars)
    ∧ (BaoStockUpdater.get_update_date_range "sh.600000" KL_TYPE.K_DAY d0310 fsStock0310).1
      ≠ none :=
  ⟨rfl, rfl, by
    rw [show BaoStockUpdater.get_update_date_range "sh.600000" KL_TYPE.K_DAY d0310 fsStock0310
        = (some (subDays d0310 30).toChars, d0310.toChars) from rfl]
    simp⟩

/-- C2 amended: for the bond and REIT updaters the claim holds: when the
stored latest timestamp L satisfies L + 1 day later than now, the resolver
returns the sentinel and the single-item update returns success with only
skipped_count incremented, no fetch consumed and no write; the stock
updater resolver, however, never returns the sentinel. -/
theorem C2_already_current {F : Type} [FloatRepr F]
    (code : String) (autype : AUTYPE) (now L : CTime)
    (stats : UpdateStats) (fs : FS F)
    (bondFetch : Option (String × List (AkshareBondUpdater.BondRow F)))
    (reitFetch : Except PyErr (List (AkshareReitsUpdater.ReitRow F)))
    (hL : OfflineDataUtil.get_latest_data_time ⟨code, KL_TYPE.K_DAY, AUTYPE.NONE⟩ "csv" fs
      = .ok (some L))
    (hwfS : (nextDay ⟨L.year, L.month, L.day⟩).wf) (hwfN : now.wf)
    (hlate : now.dateKey < (nextDay ⟨L.year, L.month, L.day⟩).dateKey) :
    AkshareBondUpdater.get_update_date_range code KL_TYPE.K_DAY AUTYPE.NONE now fs
      = .ok (none, now.toChars)
    ∧ AkshareBondUpdater.update_single_bond code KL_TYPE.K_DAY autype false now
        bondFetch stats fs
      = (true, { stats with skipped_count := stats.skipped_count + 1 }, fs)
    ∧ AkshareReitsUpdater.get_update_date_range code KL_TYPE.K_DAY AUTYPE.NONE now fs
      = .ok (none, now.toChars)
    ∧ AkshareReitsUpdater.update_single_reit code KL_TYPE.K_DAY autype false now
        reitFetch stats fs
      = (true, { stats with skipped_count := stats.skipped_count + 1 }, fs)
    ∧ (∀ (code' : String) (kt : KL_TYPE) (fs' : FS F),
        (BaoStockUpdater.get_update_date_range code' kt now fs').1 ≠ none) := by
  have hcmp : lexLt now.toChars (nextDay ⟨L.year, L.month, L.day⟩).toChars = true :=
    (toChars_lt_iff hwfN hwfS).mpr hlate
  have hbond : AkshareBondUpdater.get_update_date_range code KL_TYPE.K_DAY AUTYPE.NONE now fs
      = .ok (none, now.toChars) := by
    unfold AkshareBondUpdater.get_update_date_range
    rw [hL]
    show (if lexLt now.toChars (nextDay ⟨L.year, L.month, L.day⟩).toChars = true
        then (pure (none, now.toChars) : Except PyErr (Option (List Char) × List Char))
        else pure (some (nextDay ⟨L.year, L.month, L.day⟩).toChars, now.toChars))
      = .ok (none, now.toChars)
    rw [if_pos hcmp]
    rfl
  have hreit : AkshareReitsUpdater.get_update_date_range code KL_TYPE.K_DAY AUTYPE.NONE now fs
      = .ok (none, now.toChars) := by
    unfold AkshareReitsUpdater.get_update_date_range
    rw [hL]
    show (if lexLt now.toChars (nextDay ⟨L.year, L.month, L.day⟩).toChars = true
        then (pure (none, now.toChars) : Except PyErr (Option (List Char) × List Char))
        else pure (some (nextDay ⟨L.year, L.month, L.day⟩).toChars, now.toChars))
      = .ok (none, now.toChars)
    rw [if_pos hcmp]
    rfl
  refine ⟨hbond, ?_, hreit, ?_, fun _ _ _ => by simp [BaoStockUpdater.get_update_date_range,
    BaoStockUpdater.get_update_date_range_try]⟩
  · unfold AkshareBondUpdater.update_single_bond
    rw [if_neg (by simp), if_neg (by simp), hbond]
    rfl
  · unfold AkshareReitsUpdater.update_single_reit
    rw [if_neg (by simp), if_neg (by simp), hreit]
    rfl

/-- C2 witness: latest stored bond bar 2024-03-10 and now 2024-03-10 gives
the sentinel and a success-with-skip, no write. -/
theorem C2_witness :
    OfflineDataUtil.get_latest_data_time keyBond "csv" fsBond0310 = .ok (some d0310)
    ∧ (nextDay ⟨d0310.year, d0310.month, d0310.day⟩).wf
    ∧ d0310.wf
    ∧ d0310.dateKey < (nextDay ⟨d0310.year, d0310.month, d0310.day⟩).dateKey
    ∧ AkshareBondUpdater.update_single_bond "019547" KL_TYPE.K_DAY AUTYPE.NONE false d0310
        none UpdateStats.init fsBond0310
      = (true, { UpdateStats.init with skipped_count := 1 }, fsBond0310) := by
  refine ⟨rfl, by decide, by decide, by decide, ?_⟩
  exact (C2_already_current "019547" AUTYPE.NONE d0310 d0310 UpdateStats.init fsBond0310
    none (.ok []) (by rfl) (by decide) (by decide) (by decide)).2.1

/-! ## C5: incremental stock update outcomes -/

/-- C5: an incremental stock update whose connection succeeds and whose
fetch returns a list resolves the date range through the TypeError fallback
(the 30-day window, never the sentinel), and then either skips (empty
fetch) or fails with TypeError from the misparameterised append call,
writing nothing; it never produces an already-current skip nor a recorded
update success. -/
theorem C5_stock_incremental {F : Type} [FloatRepr F]
    (code : String) (k_type : KL_TYPE) (autype : AUTYPE) (now : CTime)
    (l : List (CKLine_Unit F)) (stats : UpdateStats) (fs : FS F) :
    BaoStockUpdater.get_update_date_range code k_type now fs
      = (some (subDays now 30).toChars, now.toChars)
    ∧ BaoStockUpdater.update_single_stock code k_type autype false now true (.ok l) stats fs
      = (if l.isEmpty
         then (true, { stats with skipped_count := stats.skipped_count + 1 }, fs)
         else (false,
           { stats with failed_count := stats.failed_count + 1,
                        failed_stocks :=
                          stats.failed_stocks ++ [code ++ "_" ++ k_type.name] }, fs)) := by
  refine ⟨rfl, ?_⟩
  unfold BaoStockUpdater.update_single_stock
  cases hl : l.isEmpty <;> simp [hl, BaoStockUpdater.get_update_date_range,
    BaoStockUpdater.get_update_date_range_try, skipOutcome]

/-! ## C4: zero-row fetches -/

/-- C4 counterexample: a bond fetch that succeeds with zero rows (every
exchange candidate returns an empty frame, so _fetch_df_by_candidates
yields no data) is recorded as a failure by update_single_bond, not as a
skip: failed_count is incremented and the code lands in failed_codes. -/
theorem C4_counterexample :
    AkshareBondUpdater.update_single_bond "019547" KL_TYPE.K_DAY AUTYPE.NONE false d0310
      none UpdateStats.init emptyFS
    = (false, { UpdateStats.init with failed_count := 1, failed_stocks := ["019547"] },
       emptyFS) := rfl

/-- C4 amended: a zero-row fetch is recorded as a skip by the stock and
REIT updaters; the bond updater records an entirely empty fetch as a
failure, and only a fetch whose rows all fall before the resolved start is
a skip there. -/
theorem C4_zero_rows {F : Type} [FloatRepr F]
    (code : String) (autype : AUTYPE) (now : CTime)
    (stats : UpdateStats) (fs : FS F) (latest : Option CTime)
    (hlat : OfflineDataUtil.get_latest_data_time ⟨code, KL_TYPE.K_DAY, AUTYPE.NONE⟩ "csv" fs
      = .ok latest) :
    (∀ k_type, BaoStockUpdater.update_single_stock code k_type autype false now true
        (.ok []) stats fs
      = (true, { stats with skipped_count := stats.skipped_count + 1 }, fs))
    ∧ AkshareReitsUpdater.update_single_reit code KL_TYPE.K_DAY autype false now
        (.ok []) stats fs
      = (true, { stats with skipped_count := stats.skipped_count + 1 }, fs)
    ∧ (∀ start_date end_date,
        AkshareBondUpdater.get_update_date_range code KL_TYPE.K_DAY AUTYPE.NONE now fs
          = .ok (some start_date, end_date) →
        AkshareBondUpdater.update_single_bond code KL_TYPE.K_DAY autype false now
          none stats fs
        = (false, { stats with failed_count := stats.failed_count + 1,
                               failed_stocks := stats.failed_stocks ++ [code] }, fs))
    ∧ (∀ (sym : String) (rows : List (AkshareBondUpdater.BondRow F)) start_date end_date,
        AkshareBondUpdater.get_update_date_range code KL_TYPE.K_DAY AUTYPE.NONE now fs
          = .ok (some start_date, end_date) →
        (rows.filter (fun r => lexLe start_date r.date.toChars)).isEmpty = true →
        AkshareBondUpdater.update_single_bond code KL_TYPE.K_DAY autype false now
          (some (sym, rows)) stats fs
        = (true, { stats with skipped_count := stats.skipped_count + 1 }, fs)) := by
  refine ⟨?_, ?_, ?_, ?_⟩
  · intro k_type
    unfold BaoStockUpdater.update_single_stock
    simp [BaoStockUpdater.get_update_date_range, BaoStockUpdater.get_update_date_range_try,
      skipOutcome]
  · unfold AkshareReitsUpdater.update_single_reit
    rw [if_neg (by simp), if_neg (by simp)]
    unfold AkshareReitsUpdater.get_update_date_range
    rw [hlat]
    cases latest with
    | none => rfl
    | some t =>
      show (match (if lexLt now.toChars (nextDay ⟨t.year, t.month, t.day⟩).toChars = true
          then (pure (none, now.toChars) : Except PyErr (Option (List Char) × List Char))
          else pure (some (nextDay ⟨t.year, t.month, t.day⟩).toChars, now.toChars)) with
        | .error _ => _
        | .ok (none, _) => skipOutcome stats fs
        | .ok (some start_date, _) => _) = _
      by_cases hc : lexLt now.toChars (nextDay ⟨t.year, t.month, t.day⟩).toChars = true
      · rw [if_pos hc]
        rfl
      · rw [if_neg hc]
        rfl
  · intro start_date end_date hres
    unfold AkshareBondUpdater.update_single_bond
    rw [if_neg (by simp), if_neg (by simp), hres]
  · intro sym rows start_date end_date hres hempty
    unfold AkshareBondUpdater.update_single_bond
    rw [if_neg (by simp), if_neg (by simp), hres]
    show (if (rows.filter (fun r => lexLe start_date r.date.toChars)).isEmpty
        then skipOutcome stats fs
        else _) = _
    rw [if_pos hempty]
    rfl

/-- C4 witness: with an empty store the stock and REIT updaters record an
empty fetch as a skip, the bond updater records it as a failure, and a
nonempty bond fetch with no row in range is a skip. -/
theorem C4_witness :
    OfflineDataUtil.get_latest_data_time keyReit "csv" (emptyFS : FS FinF) = .ok none
    ∧ (BaoStockUpdater.update_single_stock "sh.600000" KL_TYPE.K_DAY AUTYPE.QFQ false d0310
        true (.ok []) UpdateStats.init emptyFS
      = (true, { UpdateStats.init with skipped_count := 1 }, emptyFS))
    ∧ (AkshareReitsUpdater.update_single_reit "508000" KL_TYPE.K_DAY AUTYPE.NONE false d0310
        (.ok []) UpdateStats.init emptyFS
      = (true, { UpdateStats.init with skipped_count := 1 }, emptyFS))
    ∧ (AkshareBondUpdater.update_single_bond "508000" KL_TYPE.K_DAY AUTYPE.NONE false d0310
        none UpdateStats.init emptyFS
      = (false, { UpdateStats.init with failed_count := 1, failed_stocks := ["508000"] },
         emptyFS)) := by
  have h := C4_zero_rows "508000" AUTYPE.NONE d0310 UpdateStats.init (emptyFS : FS FinF)
    none rfl
  exact ⟨rfl, (C4_zero_rows "sh.600000" AUTYPE.QFQ d0310 UpdateStats.init emptyFS none
      rfl).1 KL_TYPE.K_DAY,
    h.2.1, h.2.2.1 (subDays d0310 90).toChars d0310.toChars rfl⟩

/-! ## C3: force-full update -/

/-- C3: in all three updaters the force-full branch calls
self.util.delete_kline_data, an attribute OfflineDataUtil never defines, so
Python raises AttributeError before anything is deleted or fetched; the
except handler records the task as failed and the store is unchanged. The
delete-then-refetch behaviour the spec describes never executes. -/
theorem C3_force_full_fails {F : Type} [FloatRepr F]
    (code : String) (k_type : KL_TYPE) (autype : AUTYPE) (now : CTime)
    (connectOk : Bool) (fetched : Except PyErr (List (CKLine_Unit F)))
    (bondFetch : Option (String × List (AkshareBondUpdater.BondRow F)))
    (reitFetch : Except PyErr (List (AkshareReitsUpdater.ReitRow F)))
    (stats : UpdateStats) (fs : FS F) :
    BaoStockUpdater.update_single_stock code k_type autype true now connectOk fetched stats fs
      = (false, { stats with failed_count := stats.failed_count + 1,
                             failed_stocks :=
                               stats.failed_stocks ++ [code ++ "_" ++ k_type.name] }, fs)
    ∧ AkshareBondUpdater.update_single_bond code KL_TYPE.K_DAY autype true now
        bondFetch stats fs
      = (false, { stats with failed_count := stats.failed_count + 1,
                             failed_stocks := stats.failed_stocks ++ [code] }, fs)
    ∧ AkshareReitsUpdater.update_single_reit code KL_TYPE.K_DAY autype true now
        reitFetch stats fs
      = (false, { stats with failed_count := stats.failed_count + 1,
                             failed_stocks :=
                               stats.failed_stocks ++ [code ++ "_" ++ KL_TYPE.K_DAY.name] },
         fs) := by
  refine ⟨rfl, ?_, ?_⟩
  · unfold AkshareBondUpdater.update_single_bond
    rw [if_neg (by simp), if_pos rfl]
  · unfold AkshareReitsUpdater.update_single_reit
    rw [if_neg (by simp), if_pos rfl]

/-! ## C6: REIT incremental update writes, then records failure -/

/-- C6: an incremental REIT update whose fetched frame is nonempty and has
at least one row on or after the resolved start converts the rows and
writes the merged series via append_kline_data; immediately after, the log
message f-string evaluates the undefined name ktype and raises NameError,
so the except handler returns False, increments failed_count and appends
code_K_DAY to failed_stocks, while success_count, updated_count and
new_records stay unchanged - and the written state fs' persists in the
result (no rollback). -/
theorem C6_reit_write_then_fail {F : Type} [FloatRepr F]
    (code : String) (autype : AUTYPE) (now : CTime) (stats : UpdateStats) (fs fs' : FS F)
    (rows : List (AkshareReitsUpdater.ReitRow F)) (start_date end_date : List Char)
    (new_data : List (CKLine_Unit F))
    (hres : AkshareReitsUpdater.get_update_date_range code KL_TYPE.K_DAY AUTYPE.NONE now fs
      = .ok (some start_date, end_date))
    (hne : rows.isEmpty = false)
    (hfilter : ((rows.filter (fun r => lexLe start_date r.date.toChars)).isEmpty) = false)
    (hconv : AkshareReitsUpdater.convertReitRows
        (rows.filter (fun r => lexLe start_date r.date.toChars)) = .ok new_data)
    (happend : OfflineDataUtil.append_kline_data ⟨code, KL_TYPE.K_DAY, AUTYPE.NONE⟩
        new_data "csv" fs = .ok fs') :
    AkshareReitsUpdater.update_single_reit code KL_TYPE.K_DAY autype false now
      (.ok rows) stats fs
    = (false, { stats with failed_count := stats.failed_count + 1,
                           failed_stocks :=
                             stats.failed_stocks ++ [code ++ "_" ++ KL_TYPE.K_DAY.name] },
       fs') := by
  unfold AkshareReitsUpdater.update_single_reit
  rw [if_neg (by simp), if_neg (by simp), hres]
  simp only [hne, hfilter, Bool.false_eq_true, if_false, hconv, happend]

/-- A concrete fetched REIT row dated 2024-03-10 with all numeric
columns 10. -/
def reitRowW : AkshareReitsUpdater.ReitRow FinF :=
  ⟨d0310, ⟨10, by norm_num⟩, ⟨10, by norm_num⟩, ⟨10, by norm_num⟩, ⟨10, by norm_num⟩,
   ⟨10, by norm_num⟩, ⟨10, by norm_num⟩, ⟨10, by norm_num⟩⟩

set_option maxRecDepth 4000 in
/-- C6 witness: a concrete incremental REIT update with one in-range row
writes the merged file and is still recorded as failed. -/
theorem C6_witness :
    AkshareReitsUpdater.get_update_date_range "508000" KL_TYPE.K_DAY AUTYPE.NONE d0310 emptyFS
      = .ok (some (subDays d0310 60).toChars, d0310.toChars)
    ∧ AkshareReitsUpdater.update_single_reit "508000" KL_TYPE.K_DAY AUTYPE.NONE false d0310
        (.ok [reitRowW]) UpdateStats.init emptyFS
      = (false,
         { UpdateStats.init with failed_count := 1, failed_stocks := ["508000_K_DAY"] },
         emptyFS.setCsv keyReit
           (OfflineDataUtil.csvContent [mkBar d0310 ⟨10, by norm_num⟩])) := by
  refine ⟨rfl, ?_⟩
  exact C6_reit_write_then_fail "508000" AUTYPE.NONE d0310 UpdateStats.init emptyFS
    (emptyFS.setCsv keyReit (OfflineDataUtil.csvContent [mkBar d0310 ⟨10, by norm_num⟩]))
    [reitRowW] (subDays d0310 60).toChars d0310.toChars [mkBar d0310 ⟨10, by norm_num⟩]
    (by rfl) (by rfl) (by rfl) (by rfl) (by rfl)

/-! ## C10: read and write error handling of the store -/

/-- C10 counterexample: an OSError while opening an existing CSV file is
not degraded to an empty series: load_kline_data_csv has no try/except
around open/readlines, so the error propagates to the caller. -/
theorem C10_counterexample :
    OfflineDataUtil.load_kline_data_csv keyStock fsFault = .error PyErr.ioError := rfl

/-- C10 amended: a missing CSV degrades to the empty series and malformed
rows are skipped individually; pickle read errors of any kind (missing file
or OSError) degrade to the empty series; but an OSError while reading an
existing CSV propagates, and write errors always propagate (never silently
swallowed). -/
theorem C10_read_write_errors {F : Type} [FloatRepr F] (key : FileKey) (fs : FS F)
    (data : List (CKLine_Unit F)) :
    (fs.csv key = .absent → OfflineDataUtil.load_kline_data_csv key fs = .ok [])
    ∧ (fs.pickle key = .absent → OfflineDataUtil.load_kline_data_pickle key fs = .ok [])
    ∧ (fs.pickle key = .ioFault → OfflineDataUtil.load_kline_data_pickle key fs = .ok [])
    ∧ (fs.csv key = .ioFault →
        OfflineDataUtil.load_kline_data_csv key fs = .error PyErr.ioError)
    ∧ (fs.csvWritable key = false →
        OfflineDataUtil.save_kline_data_csv key data fs = .error PyErr.ioError)
    ∧ (∀ (hdr bad : List Char) (pre post : List (List Char)),
        fs.csv key = .ok (hdr :: (pre ++ bad :: post)) →
        @OfflineDataUtil.parseRow F _ bad = none →
        OfflineDataUtil.load_kline_data_csv key fs
          = .ok (pre.filterMap OfflineDataUtil.parseRow
              ++ post.filterMap OfflineDataUtil.parseRow)) := by
  refine ⟨?_, ?_, ?_, ?_, ?_, ?_⟩
  · intro h
    unfold OfflineDataUtil.load_kline_data_csv
    rw [h]
  · intro h
    unfold OfflineDataUtil.load_kline_data_pickle
    rw [h]
  · intro h
    unfold OfflineDataUtil.load_kline_data_pickle
    rw [h]
  · intro h
    unfold OfflineDataUtil.load_kline_data_csv
    rw [h]
  · intro h
    unfold OfflineDataUtil.save_kline_data_csv
    rw [h]
    rfl
  · intro hdr bad pre post h hbad
    unfold OfflineDataUtil.load_kline_data_csv
    rw [h]
    simp [List.filterMap_append, List.filterMap_cons, hbad]

/-- A stored CSV whose single body row is garbage. -/
def fsBadRow : FS FinF :=
  emptyFS.setCsv keyStock [OfflineDataUtil.headerLine, "garbage".data]

/-- C10 witness: a missing CSV loads as empty, pickle faults load as empty,
a CSV open fault propagates, a write fault propagates, and a garbage body
row is skipped. -/
theorem C10_witness :
    OfflineDataUtil.load_kline_data_csv keyStock (emptyFS : FS FinF) = .ok []
    ∧ OfflineDataUtil.load_kline_data_pickle keyStock (fsFault : FS FinF) = .ok []
    ∧ OfflineDataUtil.load_kline_data_csv keyStock (fsFault : FS FinF)
      = .error PyErr.ioError
    ∧ OfflineDataUtil.save_kline_data_csv keyStock [] (fsFault : FS FinF)
      = .error PyErr.ioError
    ∧ OfflineDataUtil.load_kline_data_csv keyStock fsBadRow = .ok [] := by
  refine ⟨(C10_read_write_errors keyStock emptyFS []).1 rfl,
    (C10_read_write_errors keyStock fsFault []).2.2.1 rfl,
    (C10_read_write_errors keyStock fsFault []).2.2.2.1 rfl,
    (C10_read_write_errors keyStock fsFault []).2.2.2.2.1 rfl, ?_⟩
  have h := (C10_read_write_errors keyStock fsBadRow []).2.2.2.2.2
    OfflineDataUtil.headerLine "garbage".data [] [] (by rfl) (by rfl)
  simpa using h

/-! ## C8: save/load round trip -/

/-- C8: saving a non-empty series with strictly increasing daily timestamps
as CSV and loading it back returns the same series: same number of bars,
same timestamps in the same order, equal numeric fields - under the float
codec conditions (GoodRepr) that express equality up to floating-point
formatting precision. -/
theorem C8_save_load_round_trip {F : Type} [FloatRepr F] (hG : GoodRepr F)
    (key : FileKey) (S : List (CKLine_Unit F)) (fs : FS F)
    (hwf : ∀ u ∈ S, u.time.wf)
    (hne : S ≠ [])
    (hinc : S.Pairwise (fun a b => a.time.dateKey < b.time.dateKey))
    (hw : fs.csvWritable key = true) :
    ∃ fs', OfflineDataUtil.save_kline_data_csv key S fs = .ok fs'
      ∧ OfflineDataUtil.load_kline_data_csv key fs' = .ok S := by
  have hsave : OfflineDataUtil.save_kline_data_csv key S fs
      = .ok (fs.setCsv key (OfflineDataUtil.csvContent S)) := by
    unfold OfflineDataUtil.save_kline_data_csv
    rw [if_pos hw]
  exact ⟨fs.setCsv key (OfflineDataUtil.csvContent S), hsave,
    load_after_save hG key hwf hsave⟩

set_option maxRecDepth 4000 in
/-- C8 witness: a concrete two-bar strictly increasing series round-trips
through the CSV file exactly. -/
theorem C8_witness :
    GoodRepr FinF
    ∧ ([mkBar ⟨2024, 1, 1⟩ ⟨10, by norm_num⟩, mkBar d0310 ⟨12, by norm_num⟩] :
        List (CKLine_Unit FinF)) ≠ []
    ∧ (∃ fs', OfflineDataUtil.save_kline_data_csv keyStock
          [mkBar ⟨2024, 1, 1⟩ ⟨10, by norm_num⟩, mkBar d0310 ⟨12, by norm_num⟩] emptyFS
        = .ok fs'
      ∧ OfflineDataUtil.load_kline_data_csv keyStock fs'
        = .ok [mkBar ⟨2024, 1, 1⟩ ⟨10, by norm_num⟩, mkBar d0310 ⟨12, by norm_num⟩]) := by
  refine ⟨goodRepr_FinF, by simp, ?_⟩
  exact C8_save_load_round_trip goodRepr_FinF keyStock _ emptyFS
    (by decide) (by simp) (by decide) rfl

/-! ## C1: append-merge semantics -/

/-- Loading a store whose CSV file holds the rendering of a series returns
that series (shared helper of the append claims). -/
theorem load_csvContent {F : Type} [FloatRepr F] (hG : GoodRepr F) (key : FileKey)
    {existing : List (CKLine_Unit F)} {fs : FS F}
    (hcsv : fs.csv key = .ok (OfflineDataUtil.csvContent existing))
    (hwfE : ∀ u ∈ existing, u.time.wf) :
    OfflineDataUtil.load_kline_data_csv key fs = .ok existing := by
  unfold OfflineDataUtil.load_kline_data_csv
  rw [hcsv]
  simp only [OfflineDataUtil.csvContent, List.drop_succ_cons, List.drop_zero]
  rw [filterMap_parseRow hG hwfE]

/-- C1: appending new bars to a stored series saves the merge in which each
timestamp occurs exactly once, bars are strictly ascending by date, every
input timestamp is present, and the bar stored under each time string is
the last input bar carrying it - new_data is concatenated after existing,
so a new bar sharing a timestamp with an existing bar overwrites it
(last-writer-wins). -/
theorem C1_append_merge {F : Type} [FloatRepr F] (hG : GoodRepr F) (key : FileKey)
    (existing new_data : List (CKLine_Unit F)) (fs : FS F)
    (hcsv : fs.csv key = .ok (OfflineDataUtil.csvContent existing))
    (hw : fs.csvWritable key = true)
    (hwfE : ∀ u ∈ existing, u.time.wf) (hwfN : ∀ u ∈ new_data, u.time.wf) :
    ∃ fs', OfflineDataUtil.append_kline_data key new_data "csv" fs = .ok fs'
      ∧ OfflineDataUtil.load_kline_data_csv key fs'
          = .ok (mergedList (existing ++ new_data))
      ∧ (∀ t, (mergedList (existing ++ new_data)).find? (fun u => u.time.toChars == t)
          = lastWith t (existing ++ new_data))
      ∧ (mergedList (existing ++ new_data)).Pairwise
          (fun a b => a.time.dateKey < b.time.dateKey)
      ∧ (∀ u ∈ existing ++ new_data, ∃ v ∈ mergedList (existing ++ new_data),
          v.time.toChars = u.time.toChars) := by
  have hwfAll : ∀ u ∈ existing ++ new_data, u.time.wf := by
    intro u hu
    rcases List.mem_append.mp hu with h | h
    exacts [hwfE u h, hwfN u h]
  have hwfM : ∀ u ∈ mergedList (existing ++ new_data), u.time.wf :=
    fun u hu => hwfAll u (mergedList_subset _ u hu)
  have hsave : OfflineDataUtil.save_kline_data_csv key
      (mergedList (existing ++ new_data)) fs
      = .ok (fs.setCsv key (OfflineDataUtil.csvContent (mergedList (existing ++ new_data)))) := by
    unfold OfflineDataUtil.save_kline_data_csv
    rw [if_pos hw]
  refine ⟨fs.setCsv key (OfflineDataUtil.csvContent (mergedList (existing ++ new_data))),
    ?_, ?_, ?_, ?_, ?_⟩
  · rw [append_csv_eq key new_data (load_csvContent hG key hcsv hwfE)]
    exact hsave
  · exact load_after_save hG key hwfM hsave
  · exact mergedList_find? _
  · refine (mergedList_sorted_strict (existing ++ new_data)).imp_of_mem ?_
    intro a b ha hb hlt
    exact (toChars_lt_iff (hwfM a ha) (hwfM b hb)).mp hlt
  · exact mergedList_complete _

/-- The scenario bars of the C1 witness. -/
def b10 : CKLine_Unit FinF := mkBar ⟨2024, 1, 1⟩ ⟨10, by norm_num⟩

/-- New bar at the shared timestamp 2024-01-01, close 11. -/
def b11 : CKLine_Unit FinF := mkBar ⟨2024, 1, 1⟩ ⟨11, by norm_num⟩

/-- New bar at 2024-01-02, close 12. -/
def b12 : CKLine_Unit FinF := mkBar ⟨2024, 1, 2⟩ ⟨12, by norm_num⟩

/-- The store holding only the existing scenario bar. -/
def fsC1 : FS FinF := emptyFS.setCsv keyStock (OfflineDataUtil.csvContent [b10])

set_option maxRecDepth 4000 in
/-- C1 witness: the scenario merge of existing close-10 with new close-11
and close-12 stores exactly the two new bars, in order. -/
theorem C1_witness :
    mergedList ([b10] ++ [b11, b12]) = [b11, b12]
    ∧ (∃ fs', OfflineDataUtil.append_kline_data keyStock [b11, b12] "csv" fsC1 = .ok fs'
      ∧ OfflineDataUtil.load_kline_data_csv keyStock fs'
          = .ok (mergedList ([b10] ++ [b11, b12]))) := by
  refine ⟨rfl, ?_⟩
  obtain ⟨fs', h1, h2, _⟩ :=
    C1_append_merge goodRepr_FinF keyStock [b10] [b11, b12] fsC1 rfl rfl
      (by decide) (by decide)
  exact ⟨fs', h1, h2⟩

/-! ## C7: idempotence of append -/

theorem lastWith_append {F : Type} (t : List Char) :
    ∀ (l1 l2 : List (CKLine_Unit F)),
    lastWith t (l1 ++ l2) =
      match lastWith t l2 with
      | some v => some v
      | none => lastWith t l1
  | [], l2 => by cases hL : lastWith t l2 <;> simp [lastWith, hL]
  | u :: l1, l2 => by
    have hcons : ∀ (l : List (CKLine_Unit F)), lastWith t (u :: l) =
        match lastWith t l with
        | some v => some v
        | none => if u.time.toChars = t then some u else none := fun _ => rfl
    show lastWith t (u :: (l1 ++ l2)) = _
    rw [hcons, lastWith_append t l1 l2]
    cases hL2 : lastWith t l2 with
    | some v => rfl
    | none =>
      rw [hcons]

theorem lastWith_eq_find? {F : Type} :
    ∀ {l : List (CKLine_Unit F)},
    (∀ u ∈ l, ∀ v ∈ l, u.time.toChars = v.time.toChars → u = v) →
    ∀ t, lastWith t l = l.find? (fun u => u.time.toChars == t)
  | [], _, t => rfl
  | u :: l, huniq, t => by
    have hrec : lastWith t l = l.find? (fun u => u.time.toChars == t) :=
      lastWith_eq_find?
        (fun x hx y hy => huniq x (List.mem_cons_of_mem _ hx) y (List.mem_cons_of_mem _ hy)) t
    have hcons : lastWith t (u :: l) =
        match lastWith t l with
        | some v => some v
        | none => if u.time.toChars = t then some u else none := rfl
    rw [hcons]
    by_cases hut : u.time.toChars = t
    · rw [List.find?_cons_of_pos _ (by simpa using hut)]
      cases hL : lastWith t l with
      | none => simp [hut]
      | some v =>
        have hv := lastWith_mem hL
        have : v = u := huniq v (List.mem_cons_of_mem _ hv.1) u (List.mem_cons_self _ _)
          (by rw [hv.2, hut])
        rw [this]
    · rw [List.find?_cons_of_neg _ (by simpa using hut)]
      cases hL : lastWith t l with
      | none =>
        rw [if_neg hut, ← hrec, hL]
      | some v =>
        rw [← hrec, hL]

theorem mergedList_mem_iff {F : Type} (all_data : List (CKLine_Unit F))
    (u : CKLine_Unit F) :
    u ∈ mergedList all_data ↔ lastWith u.time.toChars all_data = some u := by
  rw [← mergeByTime_lookup]
  constructor
  · intro hu
    exact (lookupA_mem_iff (mergeByTime_inv all_data) (mergeByTime_keys_nodup all_data)
      _ u).mpr ⟨(mergedList_perm all_data).mem_iff.mp hu, rfl⟩
  · intro h
    exact (mergedList_perm all_data).mem_iff.mpr
      ((lookupA_mem_iff (mergeByTime_inv all_data) (mergeByTime_keys_nodup all_data)
        _ u).mp h).1

theorem mergedList_time_inj {F : Type} (all_data : List (CKLine_Unit F))
    {u v : CKLine_Unit F} (hu : u ∈ mergedList all_data) (hv : v ∈ mergedList all_data)
    (htc : u.time.toChars = v.time.toChars) : u = v :=
  vals_time_inj all_data ((mergedList_perm all_data).mem_iff.mp hu)
    ((mergedList_perm all_data).mem_iff.mp hv) htc

/-- Merging the already-merged series with the same new bars again changes
nothing. -/
theorem mergedList_idem {F : Type} (existing new_data : List (CKLine_Unit F)) :
    mergedList (mergedList (existing ++ new_data) ++ new_data)
      = mergedList (existing ++ new_data) := by
  have hM := fun t => mergedList_find? (existing ++ new_data) t
  have huniqM : ∀ u ∈ mergedList (existing ++ new_data),
      ∀ v ∈ mergedList (existing ++ new_data),
      u.time.toChars = v.time.toChars → u = v :=
    fun u hu v hv h => mergedList_time_inj _ hu hv h
  have hlastM : ∀ t, lastWith t (mergedList (existing ++ new_data))
      = lastWith t (existing ++ new_data) := by
    intro t
    rw [lastWith_eq_find? huniqM t, hM t]
  have hlast : ∀ t, lastWith t (mergedList (existing ++ new_data) ++ new_data)
      = lastWith t (existing ++ new_data) := by
    intro t
    rw [lastWith_append, lastWith_append, hlastM t, lastWith_append]
    cases hL : lastWith t new_data with
    | some v => rfl
    | none =>
      cases hE : lastWith t existing <;> rfl
  have hmem : ∀ u, u ∈ mergedList (mergedList (existing ++ new_data) ++ new_data)
      ↔ u ∈ mergedList (existing ++ new_data) := by
    intro u
    rw [mergedList_mem_iff, mergedList_mem_iff, hlast u.time.toChars]
  have hperm : List.Perm (mergedList (mergedList (existing ++ new_data) ++ new_data))
      (mergedList (existing ++ new_data)) :=
    (List.perm_ext_iff_of_nodup (mergedList_nodup _) (mergedList_nodup _)).mpr hmem
  haveI : IsAntisymm (CKLine_Unit F)
      (fun a b => lexLt a.time.toChars b.time.toChars = true) :=
    ⟨fun a b h1 h2 => by rw [lexLt_asymm h1] at h2; cases h2⟩
  exact List.eq_of_perm_of_sorted hperm (mergedList_sorted_strict _)
    (mergedList_sorted_strict _)

/-- C7: appending the same new bars twice leaves the same stored CSV series
as appending them once. -/
theorem C7_append_idempotent {F : Type} [FloatRepr F] (hG : GoodRepr F) (key : FileKey)
    (existing new_data : List (CKLine_Unit F)) (fs : FS F)
    (hcsv : fs.csv key = .ok (OfflineDataUtil.csvContent existing))
    (hw : fs.csvWritable key = true)
    (hwfE : ∀ u ∈ existing, u.time.wf) (hwfN : ∀ u ∈ new_data, u.time.wf) :
    ∃ fs₁ fs₂,
      OfflineDataUtil.append_kline_data key new_data "csv" fs = .ok fs₁
      ∧ OfflineDataUtil.append_kline_data key new_data "csv" fs₁ = .ok fs₂
      ∧ fs₂.csv key = fs₁.csv key
      ∧ fs₁.csv key
        = .ok (OfflineDataUtil.csvContent (mergedList (existing ++ new_data))) := by
  have hwfAll : ∀ u ∈ existing ++ new_data, u.time.wf := by
    intro u hu
    rcases List.mem_append.mp hu with h | h
    exacts [hwfE u h, hwfN u h]
  have hwfM : ∀ u ∈ mergedList (existing ++ new_data), u.time.wf :=
    fun u hu => hwfAll u (mergedList_subset _ u hu)
  have hsave : OfflineDataUtil.save_kline_data_csv key
      (mergedList (existing ++ new_data)) fs
      = .ok (fs.setCsv key
          (OfflineDataUtil.csvContent (mergedList (existing ++ new_data)))) := by
    unfold OfflineDataUtil.save_kline_data_csv
    rw [if_pos hw]
  have h1 : OfflineDataUtil.append_kline_data key new_data "csv" fs
      = .ok (fs.setCsv key
          (OfflineDataUtil.csvContent (mergedList (existing ++ new_data)))) := by
    rw [append_csv_eq key new_data (load_csvContent hG key hcsv hwfE)]
    exact hsave
  have hfs1csv : (fs.setCsv key
      (OfflineDataUtil.csvContent (mergedList (existing ++ new_data)))).csv key
      = .ok (OfflineDataUtil.csvContent (mergedList (existing ++ new_data))) := by
    simp [FS.setCsv]
  have hfs1w : (fs.setCsv key
      (OfflineDataUtil.csvContent (mergedList (existing ++ new_data)))).csvWritable key
      = true := hw
  have hsave2 : OfflineDataUtil.save_kline_data_csv key
      (mergedList (existing ++ new_data))
      (fs.setCsv key (OfflineDataUtil.csvContent (mergedList (existing ++ new_data))))
      = .ok ((fs.setCsv key
          (OfflineDataUtil.csvContent (mergedList (existing ++ new_data)))).setCsv key
          (OfflineDataUtil.csvContent (mergedList (existing ++ new_data)))) := by
    unfold OfflineDataUtil.save_kline_data_csv
    rw [if_pos hfs1w]
  have h2 : OfflineDataUtil.append_kline_data key new_data "csv"
      (fs.setCsv key (OfflineDataUtil.csvContent (mergedList (existing ++ new_data))))
      = .ok ((fs.setCsv key
          (OfflineDataUtil.csvContent (mergedList (existing ++ new_data)))).setCsv key
          (OfflineDataUtil.csvContent (mergedList (existing ++ new_data)))) := by
    rw [append_csv_eq key new_data (load_csvContent hG key hfs1csv hwfM),
      mergedList_idem existing new_data]
    exact hsave2
  refine ⟨_, _, h1, h2, ?_, hfs1csv⟩
  simp [FS.setCsv]

set_option maxRecDepth 4000 in
/-- C7 witness: appending the scenario bars twice to the concrete store
leaves the same stored CSV series as appending them once. -/
theorem C7_witness :
    ∃ fs₁ fs₂,
      OfflineDataUtil.append_kline_data keyStock [b11, b12] "csv" fsC1 = .ok fs₁
      ∧ OfflineDataUtil.append_kline_data keyStock [b11, b12] "csv" fs₁ = .ok fs₂
      ∧ fs₂.csv keyStock = fs₁.csv keyStock
      ∧ fs₁.csv keyStock
        = .ok (OfflineDataUtil.csvContent (mergedList ([b10] ++ [b11, b12]))) :=
  C7_append_idempotent goodRepr_FinF keyStock [b10] [b11, b12] fsC1 rfl rfl
    (by decide) (by decide)
